import Mathlib

/-!
# A shallow embedding of the `edgar` filing extractor

Sources embedded: `data_def.go` (the keyword table, `getFinDataType`, the four
record shapes, `generateData`, `Validate`, `SetData`) and `bs_parser.go`
(`getBSData`).

Conventions.
* A Go `string` is a Lean `String`; `strings.ToLower` maps every rune through
  `unicode.ToLower`, which is taken as a parameter `lower : Char → Char`
  (the standard library table is not part of the repository).
* A Go `int64` is an `Int`; the one arithmetic operation of the program,
  the subtraction in `generateData`, wraps modulo `2^64` (`sub64`).
* A Go `error` is an `Option String`: `none` is `nil`, `some msg` is an error
  with that message.
* `reflect` is embedded by a list of field descriptors per struct type and by
  index-based accessors on the record, so the loops of `Validate` and `SetData`
  run over the same indices as in the source.
* `Validate` and `SetData` are embedded for calls with a pointer to the record
  (the form used by `getBSData`); the updated record is returned with the result.
* `bs_parser.go` calls `parseTableRow`, `getFinDataType`, `setData` and `validate`
  in a form that the sources at hand do not define: `getBSData` takes them as
  `Helpers`, instantiated with the functions of `data_def.go`; the tokenizer and
  the number normalizer are modelled from the spec, and the populator with a
  scale is `SetData` with that normalizer.
-/

namespace Edgar

/-! ## Strings -/

/-- Go `strings.ToLower`: maps every rune of the string through `lower`. -/
def ToLower (lower : Char → Char) (s : String) : String :=
  ⟨s.data.map lower⟩

/-- Go `strings.Contains s substr`: `substr` occurs in `s` at some offset. -/
def Contains (s substr : String) : Bool :=
  s.data.tails.any (fun t => substr.data.isPrefixOf t)

/-- The part of `unicode.ToLower` the program relies on: on ASCII it maps
`A`..`Z` to `a`..`z` and fixes every other character. -/
def ASCIILower (lower : Char → Char) : Prop :=
  ∀ c : Char, c.toNat < 128 → lower c = c.toLower

/-- Every character is ASCII and is not an upper-case letter. -/
def isLowerASCII (s : String) : Bool :=
  s.data.all (fun c => decide (c.toNat < 128) && decide (c.toLower = c))

/-! ## Field types and the keyword table (`data_def.go` 12–73) -/

/-- Go `type finDataType string`. -/
abbrev finDataType := String

structure finDataSearchInfo where
  finDataName : finDataType
  finDataStr : String
  deriving DecidableEq, Repr

def finDataSharesOutstanding : finDataType := "Shares Outstanding"
def finDataRevenue : finDataType := "Revenue"
def finDataCostOfRevenue : finDataType := "Cost Of Revenue"
def finDataGrossMargin : finDataType := "Gross Margin"
def finDataOpsIncome : finDataType := "Operational Income"
def finDataOpsExpense : finDataType := "Operational Expense"
def finDataNetIncome : finDataType := "Net Income"
def finDataOpCashFlow : finDataType := "Operating Cash Flow"
def finDataCapEx : finDataType := "Capital Expenditure"
def finDataLDebt : finDataType := "Long-Term debt"
def finDataSDebt : finDataType := "Short-Term debt"
def finDataCLiab : finDataType := "Current Liabilities"
def finDataDeferred : finDataType := "Deferred revenue"
def finDataRetained : finDataType := "Retained Earnings"
def finDataUnknown : finDataType := "Unknown"

/-- Keys to search for financial data in the filings. -/
def finDataSearchKeys : List finDataSearchInfo :=
  [ ⟨finDataRevenue, "net revenue"⟩,
    ⟨finDataRevenue, "net sales"⟩,
    ⟨finDataRevenue, "total revenue"⟩,
    ⟨finDataRevenue, "total sales"⟩,
    ⟨finDataCostOfRevenue, "cost of sales"⟩,
    ⟨finDataCostOfRevenue, "cost of revenue"⟩,
    ⟨finDataGrossMargin, "gross margin"⟩,
    ⟨finDataSharesOutstanding, "shares outstanding"⟩,
    ⟨finDataOpsExpense, "operating expenses"⟩,
    ⟨finDataOpsIncome, "operating income"⟩,
    ⟨finDataOpsIncome, "operating (loss)"⟩,
    ⟨finDataOpsIncome, "operating loss"⟩,
    ⟨finDataNetIncome, "net income"⟩,
    ⟨finDataOpCashFlow, "operating activities"⟩,
    ⟨finDataCapEx, "plant and equipment"⟩,
    ⟨finDataCapEx, "capital expen"⟩,
    ⟨finDataSDebt, "current portion of long-term"⟩,
    ⟨finDataLDebt, "long term debt"⟩,
    ⟨finDataLDebt, "long-term debt"⟩,
    ⟨finDataCLiab, "total current liabilities"⟩,
    ⟨finDataDeferred, "deferred revenue"⟩,
    ⟨finDataRetained, "retained earnings"⟩ ]

/-- The `for _, val := range ...` loop of `getFinDataType` over the rest of the
table; `key` is already lower-cased. -/
def searchKeys (lower : Char → Char) (key : String) : List finDataSearchInfo → finDataType
  | [] => finDataUnknown
  | val :: rest =>
    let lup := ToLower lower val.finDataStr
    if Contains key lup then val.finDataName else searchKeys lower key rest

def getFinDataType (lower : Char → Char) (key : String) : finDataType :=
  let key := ToLower lower key
  searchKeys lower key finDataSearchKeys

/-! ## Records (`data_def.go` 93–117) -/

/-- What `reflect` exposes of one struct field: its name and the three tags the
program looks up (`Tag.Lookup` yields `none` when the tag is absent). -/
structure StructField where
  Name : String
  json : Option String
  required : Option String
  generate : Option String
  deriving DecidableEq, Repr

structure EntityData where
  ShareCount : Int
  deriving DecidableEq, Repr

structure OpsData where
  Revenue : Int
  CostOfSales : Int
  GrossMargin : Int
  OpIncome : Int
  OpExpense : Int
  NetIncome : Int
  deriving DecidableEq, Repr

structure CfData where
  OpCashFlow : Int
  CapEx : Int
  deriving DecidableEq, Repr

structure BSData where
  LDebt : Int
  SDebt : Int
  CLiab : Int
  Deferred : Int
  Retained : Int
  deriving DecidableEq, Repr

/-- The `data interface{}` argument of `Validate`, `SetData` and `generateData`:
a pointer to a record of one of the four shapes. -/
inductive Data where
  | entity (d : EntityData)
  | ops (d : OpsData)
  | cf (d : CfData)
  | bs (d : BSData)
  deriving DecidableEq, Repr

def entityFields : List StructField :=
  [ ⟨"ShareCount", some "Shares Outstanding", some "true", none⟩ ]

def opsFields : List StructField :=
  [ ⟨"Revenue", some "Revenue", some "true", none⟩,
    ⟨"CostOfSales", some "Cost Of Revenue", some "true", none⟩,
    ⟨"GrossMargin", some "Gross Margin", some "true", some "true"⟩,
    ⟨"OpIncome", some "Operational Income", some "true", none⟩,
    ⟨"OpExpense", some "Operational Expense", some "true", none⟩,
    ⟨"NetIncome", some "Net Income", some "true", none⟩ ]

def cfFields : List StructField :=
  [ ⟨"OpCashFlow", some "Operating Cash Flow", some "true", none⟩,
    ⟨"CapEx", some "Capital Expenditure", some "true", none⟩ ]

def bsFields : List StructField :=
  [ ⟨"LDebt", some "Long-Term debt", some "true", none⟩,
    ⟨"SDebt", some "Short-Term debt", some "true", none⟩,
    ⟨"CLiab", some "Current Liabilities", some "true", none⟩,
    ⟨"Deferred", some "Deferred revenue", some "false", none⟩,
    ⟨"Retained", some "Retained Earnings", some "true", none⟩ ]

/-- The fields of `reflect.TypeOf(data).Elem()`, in declaration order. -/
def Data.fields : Data → List StructField
  | .entity _ => entityFields
  | .ops _ => opsFields
  | .cf _ => cfFields
  | .bs _ => bsFields

/-- Go `v.Field(i).Int()`. -/
def Data.fieldInt : Data → Nat → Int
  | .entity d, 0 => d.ShareCount
  | .ops d, 0 => d.Revenue
  | .ops d, 1 => d.CostOfSales
  | .ops d, 2 => d.GrossMargin
  | .ops d, 3 => d.OpIncome
  | .ops d, 4 => d.OpExpense
  | .ops d, 5 => d.NetIncome
  | .cf d, 0 => d.OpCashFlow
  | .cf d, 1 => d.CapEx
  | .bs d, 0 => d.LDebt
  | .bs d, 1 => d.SDebt
  | .bs d, 2 => d.CLiab
  | .bs d, 3 => d.Deferred
  | .bs d, 4 => d.Retained
  | _, _ => 0

/-- Go `v.Field(i).SetInt(x)`. -/
def Data.setInt : Data → Nat → Int → Data
  | .entity d, 0, x => .entity { d with ShareCount := x }
  | .ops d, 0, x => .ops { d with Revenue := x }
  | .ops d, 1, x => .ops { d with CostOfSales := x }
  | .ops d, 2, x => .ops { d with GrossMargin := x }
  | .ops d, 3, x => .ops { d with OpIncome := x }
  | .ops d, 4, x => .ops { d with OpExpense := x }
  | .ops d, 5, x => .ops { d with NetIncome := x }
  | .cf d, 0, x => .cf { d with OpCashFlow := x }
  | .cf d, 1, x => .cf { d with CapEx := x }
  | .bs d, 0, x => .bs { d with LDebt := x }
  | .bs d, 1, x => .bs { d with SDebt := x }
  | .bs d, 2, x => .bs { d with CLiab := x }
  | .bs d, 3, x => .bs { d with Deferred := x }
  | .bs d, 4, x => .bs { d with Retained := x }
  | d, _, _ => d

/-! ## Machine arithmetic -/

/-- The `int64` value of an integer: reduction modulo `2^64` into
`[-2^63, 2^63)`. -/
def wrap64 (x : Int) : Int :=
  (x + 2 ^ 63) % 2 ^ 64 - 2 ^ 63

/-- Go `a - b` on `int64`. -/
def sub64 (a b : Int) : Int :=
  wrap64 (a - b)

/-- The value is representable as an `int64`. -/
def inInt64 (x : Int) : Prop :=
  -2 ^ 63 ≤ x ∧ x < 2 ^ 63

instance (x : Int) : Decidable (inInt64 x) := by
  unfold inInt64; infer_instance

/-! ## `generateData`, `Validate`, `SetData` (`data_def.go` 179–240) -/

def generateData (data : Data) (name : String) : Int :=
  if name = "GrossMargin" then
    match data with
    | .ops val => sub64 val.Revenue val.CostOfSales
    | _ => 0
  else 0

/-- The `for i := 0; i < t.NumField(); i++` loop of `Validate`, from index `i`
over the remaining fields; `v` is the record behind the pointer and `err` the
accumulated text. -/
def validateLoop : List StructField → Nat → Data → String → Data × String
  | [], _, v, err => (v, err)
  | f :: rest, i, v, err =>
    let val := v.fieldInt i
    if val = 0 ∧ f.required = some "true" then
      if f.generate = some "true" then
        let num := generateData v f.Name
        if num = 0 then
          validateLoop rest (i + 1) v (err ++ (f.Name ++ ","))
        else
          validateLoop rest (i + 1) (v.setInt i num) err
      else
        validateLoop rest (i + 1) v (err ++ (f.Name ++ ","))
    else
      validateLoop rest (i + 1) v err

/-- Validate is a function to check that no field is set to 0 after parsing.
Returns the record as the call leaves it and the error (`none` for `nil`). -/
def Validate (data : Data) : Data × Option String :=
  let (v, err) := validateLoop data.fields 0 data ""
  if err.length > 0 then
    (v, some ("[" ++ err ++ "] " ++ "attributes did not parse"))
  else
    (v, none)

/-- The `for` loop of `SetData` from index `i` over the remaining fields. -/
def setDataLoop (normalizeNumber : String → Int) (finType : finDataType) (val : String) :
    List StructField → Nat → Data → Data × Option String
  | [], _, v => (v, some ("Could not find the field to set: " ++ finType))
  | f :: rest, i, v =>
    if f.json = some finType then
      if v.fieldInt i = 0 then
        (v.setInt i (normalizeNumber val), none)
      else
        (v, none)
    else
      setDataLoop normalizeNumber finType val rest (i + 1) v

/-- `SetData`; `normalizeNumber` (not part of the sources at hand) is a
parameter. Returns the record as the call leaves it and the error. -/
def SetData (normalizeNumber : String → Int) (data : Data) (finType : finDataType)
    (val : String) : Data × Option String :=
  setDataLoop normalizeNumber finType val data.fields 0 data

/-! ## `getBSData` (`bs_parser.go`) -/

/-- Modelled from the spec: the row tokenizer (`html.Tokenizer` read through
`parseTableRow`, neither in the sources at hand). It yields the remaining table
rows one per call and, once they are used up, fails with `err`: `io.EOF` at the
end of the stream or a stream error. -/
structure Tokenizer where
  rows : List (List String)
  err : String
  deriving DecidableEq, Repr

/-- Go `io.EOF`. -/
def ioEOF : String := "EOF"

/-- Modelled from the spec: `parseTableRow(z, false)` returns the next row with a
`nil` error and advances the stream, or no row with the stream's error. -/
def parseTableRow (z : Tokenizer) : (List String × Option String) × Tokenizer :=
  match z.rows with
  | [] => (([], some z.err), z)
  | data :: rest => ((data, none), { z with rows := rest })

/-- The functions `getBSData` calls that the sources at hand do not define, with
the filing scale and the document type already applied: the classifier, the
populator and the validator over a record type `σ`. -/
structure Helpers (σ : Type) where
  getFinDataType : String → finDataType
  setData : σ → finDataType → String → σ × Option String
  validate : σ → σ × Option String

/-- The loop `for _, str := range data[1:]`: the first non-empty cell for which
`setData` returns `nil` ends it. -/
def setFirstCell {σ : Type} (h : Helpers σ) (finType : finDataType) : List String → σ → σ
  | [], retData => retData
  | str :: rest, retData =>
    if str.length > 0 then
      let (retData1, e) := h.setData retData finType str
      if e = none then retData1 else setFirstCell h finType rest retData1
    else
      setFirstCell h finType rest retData

/-- The body of the row loop before the completeness check. -/
def processRow {σ : Type} (h : Helpers σ) (data : List String) (retData : σ) : σ :=
  match data with
  | [] => retData
  | label :: cells =>
    let finType := h.getFinDataType label
    if finType ≠ finDataUnknown then setFirstCell h finType cells retData else retData

/-- The loop `for err == nil` of `getBSData` over the rows the tokenizer still
holds (each iteration takes the next one with `parseTableRow`); returns the
record and the rows never requested. -/
def rowLoop {σ : Type} (h : Helpers σ) : List (List String) → σ → σ × List (List String)
  | [], retData => (retData, [])
  | data :: rest, retData =>
    let retData1 := processRow h data retData
    let (retData2, e) := h.validate retData1
    if e = none then (retData2, rest) else rowLoop h rest retData2

/-- `getBSData`; `new` is the zero record `new(bsData)`. The tokenizer's error
`z.err` ends the loop and is not used afterwards. -/
def getBSData {σ : Type} (h : Helpers σ) (new : σ) (z : Tokenizer) : σ × Option String :=
  let (retData, _) := rowLoop h z.rows new
  h.validate retData

/-- The helpers as `data_def.go` defines them. -/
def dataDefHelpers (lower : Char → Char) (normalizeNumber : String → Int) : Helpers Data where
  getFinDataType := getFinDataType lower
  setData := SetData normalizeNumber
  validate := Validate

/-- The zero value of `BSData`. -/
def newBSData : Data := .bs ⟨0, 0, 0, 0, 0⟩

/-! ## Specification-level notions for `Validate` -/

/-- Spec: attribute `i` of `d` is required, zero, and has no derivation that gives
a non-zero value. -/
def isMissing (d : Data) (i : Nat) (f : StructField) : Bool :=
  decide (d.fieldInt i = 0) && decide (f.required = some "true") &&
    (decide (f.generate ≠ some "true") || decide (generateData d f.Name = 0))

def missingFrom (d : Data) : List StructField → Nat → List String
  | [], _ => []
  | f :: rest, i =>
    if isMissing d i f = true then f.Name :: missingFrom d rest (i + 1)
    else missingFrom d rest (i + 1)

def missingNames (d : Data) : List String :=
  missingFrom d d.fields 0

def derived : Data → Data
  | .ops o =>
    if o.GrossMargin = 0 ∧ sub64 o.Revenue o.CostOfSales ≠ 0 then
      .ops { o with GrossMargin := sub64 o.Revenue o.CostOfSales }
    else .ops o
  | d => d

def joinNames : List String → String
  | [] => ""
  | n :: ns => (n ++ ",") ++ joinNames ns

def errorOf (names : List String) : Option String :=
  if names = [] then none
  else some ("[" ++ joinNames names ++ "] " ++ "attributes did not parse")

/-- Spec: the names, in field order, of the attributes from index `i` on that are
required, have no derivation rule and are zero. -/
def zeroNoRuleFrom (d : Data) : List StructField → Nat → List String
  | [], _ => []
  | f :: rest, i =>
    if d.fieldInt i = 0 ∧ f.required = some "true" ∧ f.generate ≠ some "true" then
      f.Name :: zeroNoRuleFrom d rest (i + 1)
    else zeroNoRuleFrom d rest (i + 1)

def requiredZeroNoRule (d : Data) : List String :=
  zeroNoRuleFrom d d.fields 0

/-- Spec: the record after the step of `Validate` for attribute `i`. -/
def stepData (v : Data) (i : Nat) (f : StructField) : Data :=
  if v.fieldInt i = 0 ∧ f.required = some "true" ∧ f.generate = some "true" ∧
      generateData v f.Name ≠ 0 then
    v.setInt i (generateData v f.Name)
  else v

/-! ## Sequences of calls on one record -/

/-- A call on the record: `SetData(data, finType, val)` or `Validate(data)`. -/
inductive Call where
  | setData (finType : finDataType) (val : String)
  | validate
  deriving DecidableEq, Repr

/-- The record after one call. -/
def applyCall (normalizeNumber : String → Int) (d : Data) : Call → Data
  | .setData finType val => (SetData normalizeNumber d finType val).1
  | .validate => (Validate d).1

/-- The record after a sequence of calls, in order. -/
def runCalls (normalizeNumber : String → Int) (d : Data) (calls : List Call) : Data :=
  calls.foldl (applyCall normalizeNumber) d

/-! ## Specification-level notions for the row loop -/

/-- Spec: the record after the loop body has run on every row of `rows` in turn
(the row is processed, then `validate` is called), with no early exit. -/
def afterRows {σ : Type} (h : Helpers σ) (rows : List (List String)) (retData : σ) : σ :=
  rows.foldl (fun r data => (h.validate (processRow h data r)).1) retData

/-- Spec: the completeness check at the end of the iteration for row `data`,
entered with record `retData`, returns `nil`. -/
def rowPasses {σ : Type} (h : Helpers σ) (data : List String) (retData : σ) : Prop :=
  (h.validate (processRow h data retData)).2 = none

/-- Spec: the result of the last `validate` call made inside the loop of
`getBSData`, if the loop body ran at all. -/
def lastCheck {σ : Type} (h : Helpers σ) : List (List String) → σ → Option (σ × Option String)
  | [], _ => none
  | data :: rest, retData =>
    let res := h.validate (processRow h data retData)
    if res.2 = none then some res
    else
      match lastCheck h rest res.1 with
      | none => some res
      | some r => some r

/-! ## Shapes and declared field types -/

/-- The four record types. -/
inductive Shape where
  | entity
  | ops
  | cf
  | bs
  deriving DecidableEq, Repr

def Shape.fields : Shape → List StructField
  | .entity => entityFields
  | .ops => opsFields
  | .cf => cfFields
  | .bs => bsFields

def Data.shape : Data → Shape
  | .entity _ => .entity
  | .ops _ => .ops
  | .cf _ => .cf
  | .bs _ => .bs

def allShapes : List Shape := [.entity, .ops, .cf, .bs]

/-- The declared `finDataType` values other than `finDataUnknown`
(`data_def.go` 21–34). -/
def finDataTypes : List finDataType :=
  [ finDataSharesOutstanding, finDataRevenue, finDataCostOfRevenue, finDataGrossMargin,
    finDataOpsIncome, finDataOpsExpense, finDataNetIncome, finDataOpCashFlow, finDataCapEx,
    finDataLDebt, finDataSDebt, finDataCLiab, finDataDeferred, finDataRetained ]

instance {σ : Type} (h : Helpers σ) (data : List String) (retData : σ) :
    Decidable (rowPasses h data retData) := by
  unfold rowPasses; infer_instance

/-- A balance-sheet table of five rows, the last one after every required
attribute has been found. -/
def sampleBSRows : List (List String) :=
  [ ["Long-term debt", "5"],
    ["Current portion of long-term debt", "7"],
    ["Total current liabilities", "9"],
    ["Retained earnings", "11"],
    ["Goodwill", "3"] ]

/-! ## The number normalizer and the scaled populator -/

/-- Modelled from the spec: the number normalizer `normalize(raw, scale)` (the
body of `normalizeNumber` is not in the sources at hand). Thousands separators,
currency symbols and parentheses are stripped, a value wrapped in parentheses is
negative, the decimal part is dropped, the magnitude is multiplied by `scale`
into an `int64`; it fails (`none`, the invalid-number condition) when the text
contains no digits. -/
def normalize (raw : String) (scale : Int) : Option Int :=
  let negative : Bool := raw.data.head? = some '(' && raw.data.getLast? = some ')'
  let digits := (raw.data.takeWhile (fun c => c ≠ '.')).filter Char.isDigit
  if raw.data.filter Char.isDigit = [] then none
  else
    let magnitude : Int := digits.foldl (fun n c => 10 * n + ((c.toNat - 48 : Nat) : Int)) 0
    some (wrap64 ((if negative then -magnitude else magnitude) * scale))

/-- Modelled from the spec: the one-argument `normalizeNumber(val)` that `SetData`
calls, for a document whose scale is `scale`: the value of `normalize`. It
returns a plain `int64`, so it cannot signal the invalid-number condition to
`SetData`; where `normalize` has no value it returns 0 here (the sources at hand
do not determine that value). -/
def normalizeNumber (scale : Int) (val : String) : Int :=
  (normalize val scale).getD 0

/-- Modelled from the spec: `setData(retData, finType, str, scales)` as
`bs_parser.go` calls it (only the three-argument `SetData` is in the sources at
hand): `SetData` of `data_def.go` with the normalizer at the document's scale. -/
def setData (scale : Int) (data : Data) (finType : finDataType) (val : String) :
    Data × Option String :=
  SetData (normalizeNumber scale) data finType val

/-- The helpers of `getBSData` with the populator at a given scale. -/
def scaledHelpers (lower : Char → Char) (scale : Int) : Helpers Data where
  getFinDataType := getFinDataType lower
  setData := setData scale
  validate := Validate

/-- The zero value of `OpsData`. -/
def newOpsData : Data := .ops ⟨0, 0, 0, 0, 0, 0⟩

/-- The three rows of the end-to-end scenario. -/
def scenarioRows : List (List String) :=
  [ ["Total revenues", "$1,000"],
    ["Cost of revenue", "$600"],
    ["Net income", "$250"] ]

/-- The rows of the scenario followed by rows for operating income and operating
expenses, and one row more. -/
def scenarioRowsExtended : List (List String) :=
  scenarioRows ++
    [ ["Operating income", "$300"],
      ["Total operating expenses", "$100"],
      ["Earnings per share", "$2"] ]

/-- Every label (first cell) of the rows is ASCII text. -/
def labelsASCII (rows : List (List String)) : Bool :=
  rows.all (fun data => data.head?.all (fun label => label.data.all (fun c => decide (c.toNat < 128))))

/-! ## Lemmas on strings and the classifier -/

theorem Contains_iff (s substr : String) :
    Contains s substr = true ↔ substr.data <:+: s.data := by
  simp only [Contains, List.any_eq_true, List.mem_tails, List.isPrefixOf_iff_prefix]
  constructor
  · rintro ⟨t, ht, hp⟩
    exact hp.isInfix.trans ht.isInfix
  · intro h
    obtain ⟨t, hp, hs⟩ := List.infix_iff_prefix_suffix.mp h
    exact ⟨t, hs, hp⟩

theorem map_lower_fixed (lower : Char → Char) (hl : ASCIILower lower) :
    ∀ cs : List Char,
      cs.all (fun c => decide (c.toNat < 128) && decide (c.toLower = c)) = true →
      cs.map lower = cs
  | [], _ => rfl
  | c :: cs, h => by
    simp only [List.all_cons, Bool.and_eq_true, decide_eq_true_eq] at h
    obtain ⟨⟨h1, h2⟩, h3⟩ := h
    rw [List.map_cons, map_lower_fixed lower hl cs h3, hl c h1, h2]

theorem ToLower_fixed (lower : Char → Char) (hl : ASCIILower lower) (s : String)
    (h : isLowerASCII s = true) : ToLower lower s = s := by
  unfold ToLower
  rw [map_lower_fixed lower hl s.data h]

theorem searchKeys_isLowerASCII :
    ∀ e ∈ finDataSearchKeys, isLowerASCII e.finDataStr = true := by
  decide

theorem searchKeys_fixed (lower : Char → Char) (hl : ASCIILower lower) :
    ∀ e ∈ finDataSearchKeys, ToLower lower e.finDataStr = e.finDataStr :=
  fun e he => ToLower_fixed lower hl _ (searchKeys_isLowerASCII e he)

/-- The loop returns the field of the first entry of the table whose keyword
occurs in the key. -/
theorem searchKeys_first (lower : Char → Char) (key : String) :
    ∀ (tbl : List finDataSearchInfo),
      (∀ e ∈ tbl, ToLower lower e.finDataStr = e.finDataStr) →
      ∀ (i : Nat) (e : finDataSearchInfo), tbl[i]? = some e →
        e.finDataStr.data <:+: key.data →
        (∀ (j : Nat) (e1 : finDataSearchInfo), j < i → tbl[j]? = some e1 →
          ¬ e1.finDataStr.data <:+: key.data) →
        searchKeys lower key tbl = e.finDataName
  | [], _, i, e, h, _, _ => by simp at h
  | val :: rest, hfix, 0, e, h, hc, _ => by
    simp only [List.getElem?_cons_zero, Option.some.injEq] at h
    subst h
    have hv := hfix val (List.mem_cons_self _ _)
    simp only [searchKeys, hv]
    rw [if_pos ((Contains_iff _ _).mpr hc)]
  | val :: rest, hfix, i + 1, e, h, hc, hno => by
    have hv := hfix val (List.mem_cons_self _ _)
    have h0 : ¬ val.finDataStr.data <:+: key.data :=
      hno 0 val (Nat.succ_pos i) (by simp)
    have h0b : ¬ (Contains key val.finDataStr = true) := fun hh => h0 ((Contains_iff _ _).mp hh)
    simp only [searchKeys, hv]
    rw [if_neg h0b]
    refine searchKeys_first lower key rest (fun e1 he1 => hfix e1 (List.mem_cons_of_mem _ he1))
      i e (by simpa using h) hc ?_
    intro j e1 hj hje
    exact hno (j + 1) e1 (Nat.succ_lt_succ hj) (by simpa using hje)

/-- The loop returns `finDataUnknown` when no keyword of the table occurs in the
key, and otherwise the field of some entry. -/
theorem searchKeys_none (lower : Char → Char) (key : String) :
    ∀ (tbl : List finDataSearchInfo),
      (∀ e ∈ tbl, ToLower lower e.finDataStr = e.finDataStr) →
      ((∀ e ∈ tbl, ¬ e.finDataStr.data <:+: key.data) →
        searchKeys lower key tbl = finDataUnknown) ∧
      ((∃ e ∈ tbl, e.finDataStr.data <:+: key.data) →
        ∃ e ∈ tbl, searchKeys lower key tbl = e.finDataName)
  | [], _ => ⟨fun _ => rfl, fun ⟨e, he, _⟩ => by simp at he⟩
  | val :: rest, hfix => by
    have hv := hfix val (List.mem_cons_self _ _)
    have ih := searchKeys_none lower key rest
      (fun e1 he1 => hfix e1 (List.mem_cons_of_mem _ he1))
    by_cases hc : Contains key val.finDataStr = true
    · refine ⟨fun hall => ?_, fun _ => ⟨val, List.mem_cons_self _ _, ?_⟩⟩
      · exact absurd ((Contains_iff _ _).mp hc) (hall val (List.mem_cons_self _ _))
      · simp only [searchKeys, hv]
        rw [if_pos hc]
    · have hstep : searchKeys lower key (val :: rest) = searchKeys lower key rest := by
        simp only [searchKeys, hv]
        rw [if_neg hc]
      rw [hstep]
      refine ⟨fun hall => ih.1 (fun e he => hall e (List.mem_cons_of_mem _ he)), ?_⟩
      rintro ⟨e, he, hce⟩
      rcases List.mem_cons.mp he with rfl | he
      · exact absurd ((Contains_iff _ _).mpr hce) hc
      · obtain ⟨e2, he2, h2⟩ := ih.2 ⟨e, he, hce⟩
        exact ⟨e2, List.mem_cons_of_mem _ he2, h2⟩

theorem searchKeys_names_known :
    ∀ e ∈ finDataSearchKeys, e.finDataName ≠ finDataUnknown := by
  decide

/-! ## The classifier: C1, C8 -/

/-- C1: for every label, `getFinDataType` returns the field of the lowest-index
entry of `finDataSearchKeys` whose keyword is a substring of the lower-cased
label, and it returns `finDataUnknown` exactly when no entry's keyword is a
substring of the lower-cased label. -/
theorem getFinDataType_first_match (lower : Char → Char) (hl : ASCIILower lower)
    (label : String) :
    (∀ (i : Nat) (e : finDataSearchInfo), finDataSearchKeys[i]? = some e →
        e.finDataStr.data <:+: (ToLower lower label).data →
        (∀ (j : Nat) (e1 : finDataSearchInfo), j < i → finDataSearchKeys[j]? = some e1 →
          ¬ e1.finDataStr.data <:+: (ToLower lower label).data) →
        getFinDataType lower label = e.finDataName) ∧
    (getFinDataType lower label = finDataUnknown ↔
      ∀ e ∈ finDataSearchKeys, ¬ e.finDataStr.data <:+: (ToLower lower label).data) := by
  have hfix := searchKeys_fixed lower hl
  refine ⟨fun i e hi hc hno => ?_, ?_⟩
  · exact searchKeys_first lower (ToLower lower label) finDataSearchKeys hfix i e hi hc hno
  · have hn := searchKeys_none lower (ToLower lower label) finDataSearchKeys hfix
    constructor
    · intro hu e he hc
      obtain ⟨e2, he2, h2⟩ := hn.2 ⟨e, he, hc⟩
      have h3 : getFinDataType lower label = e2.finDataName := h2
      exact searchKeys_names_known e2 he2 (h3 ▸ hu)
    · intro hall
      exact hn.1 hall

/-- C1 at the label "Long-Term Debt, net" with the ASCII lower-casing: the entry
of index 18 is the first whose keyword occurs, and the result is its field. -/
theorem getFinDataType_first_match_witness :
    ASCIILower Char.toLower ∧
    getFinDataType Char.toLower "Long-Term Debt, net" = finDataLDebt ∧
    (getFinDataType Char.toLower "Goodwill" = finDataUnknown ↔
      ∀ e ∈ finDataSearchKeys,
        ¬ e.finDataStr.data <:+: (ToLower Char.toLower "Goodwill").data) :=
  ⟨fun _ _ => rfl,
   (getFinDataType_first_match Char.toLower (fun _ _ => rfl) "Long-Term Debt, net").1 18
      ⟨finDataLDebt, "long-term debt"⟩ (by decide)
      ((Contains_iff _ _).mp (by decide))
      (by
        intro j e1 hj he1 hc
        have hc2 := (Contains_iff _ _).mpr hc
        have : ∀ j < 18, ∀ e1, finDataSearchKeys[j]? = some e1 →
            Contains (ToLower Char.toLower "Long-Term Debt, net") e1.finDataStr = false := by
          decide
        rw [this j hj e1 he1] at hc2
        exact Bool.false_ne_true hc2),
   (getFinDataType_first_match Char.toLower (fun _ _ => rfl) "Goodwill").2⟩

/-- C8: every label whose lower-cased text contains "total revenue" and none of
the keywords listed before that entry (index 2 of the table) classifies as
Revenue, whatever the letter case of the label. -/
theorem getFinDataType_total_revenue (lower : Char → Char) (hl : ASCIILower lower)
    (L : String)
    (h : "total revenue".data <:+: (ToLower lower L).data)
    (hno : ∀ (j : Nat) (e1 : finDataSearchInfo), j < 2 → finDataSearchKeys[j]? = some e1 →
      ¬ e1.finDataStr.data <:+: (ToLower lower L).data) :
    getFinDataType lower L = finDataRevenue :=
  searchKeys_first lower (ToLower lower L) finDataSearchKeys (searchKeys_fixed lower hl) 2
    ⟨finDataRevenue, "total revenue"⟩ rfl h hno

/-- C8 at the label "Total revenues". -/
theorem getFinDataType_total_revenue_witness :
    ASCIILower Char.toLower ∧
    "total revenue".data <:+: (ToLower Char.toLower "Total revenues").data ∧
    (∀ (j : Nat) (e1 : finDataSearchInfo), j < 2 → finDataSearchKeys[j]? = some e1 →
      ¬ e1.finDataStr.data <:+: (ToLower Char.toLower "Total revenues").data) ∧
    getFinDataType Char.toLower "Total revenues" = finDataRevenue :=
  have hno : ∀ (j : Nat) (e1 : finDataSearchInfo), j < 2 → finDataSearchKeys[j]? = some e1 →
      ¬ e1.finDataStr.data <:+: (ToLower Char.toLower "Total revenues").data := by
    intro j e1 hj he1 hc
    have hc2 := (Contains_iff _ _).mpr hc
    have : ∀ j < 2, ∀ e1, finDataSearchKeys[j]? = some e1 →
        Contains (ToLower Char.toLower "Total revenues") e1.finDataStr = false := by
      decide
    rw [this j hj e1 he1] at hc2
    exact Bool.false_ne_true hc2
  ⟨fun _ _ => rfl, (Contains_iff _ _).mp (by decide), hno,
   getFinDataType_total_revenue Char.toLower (fun _ _ => rfl) "Total revenues"
     ((Contains_iff _ _).mp (by decide)) hno⟩

/-! ## `Validate` in closed form -/

theorem joinNames_length_pos (names : List String) :
    (joinNames names).length > 0 ↔ names ≠ [] := by
  cases names with
  | nil => simp [joinNames]
  | cons n ns =>
    have h1 : ",".length = 1 := by decide
    simp [joinNames, String.length_append, h1]

theorem Validate_of_loop (d v : Data) (names : List String)
    (h : validateLoop d.fields 0 d "" = (v, joinNames names)) :
    Validate d = (v, errorOf names) := by
  unfold Validate
  rw [h]
  by_cases hn : names = []
  · subst hn; simp [joinNames, errorOf]
  · have := (joinNames_length_pos names).mpr hn
    simp [errorOf, hn, this]

theorem validateLoop_cons (f : StructField) (rest : List StructField) (i : Nat) (v : Data)
    (err : String) :
    validateLoop (f :: rest) i v err =
      validateLoop rest (i + 1) (stepData v i f) (err ++ joinNames (missingFrom v [f] i)) := by
  by_cases hz : v.fieldInt i = 0 <;> by_cases hr : f.required = some "true" <;>
    by_cases hg : f.generate = some "true" <;> by_cases hn : generateData v f.Name = 0 <;>
    simp [validateLoop, missingFrom, isMissing, joinNames, stepData, hz, hr, hg, hn]

theorem missingFrom_cons (d : Data) (f : StructField) (rest : List StructField) (i : Nat) :
    missingFrom d (f :: rest) i = missingFrom d [f] i ++ missingFrom d rest (i + 1) := by
  simp only [missingFrom]
  split_ifs <;> simp

theorem joinNames_append : ∀ (a b : List String),
    joinNames (a ++ b) = joinNames a ++ joinNames b
  | [], b => by simp [joinNames]
  | n :: a, b => by simp [joinNames, joinNames_append a b, String.append_assoc]

theorem fieldInt_derived (d : Data) (i : Nat) (hi : i ≠ 2) :
    (derived d).fieldInt i = d.fieldInt i := by
  cases d with
  | ops o =>
    simp only [derived]
    split_ifs
    · rcases i with _ | _ | _ | _ | _ | _ | i
      · rfl
      · rfl
      · exact absurd rfl hi
      · rfl
      · rfl
      · rfl
      · rfl
    · rfl
  | entity o => rfl
  | cf o => rfl
  | bs o => rfl

theorem validateLoop_ops (o : OpsData) :
    validateLoop opsFields 0 (.ops o) "" = (derived (.ops o), joinNames (missingNames (.ops o))) := by
  simp only [missingNames, Data.fields, opsFields]
  rw [validateLoop_cons, validateLoop_cons, validateLoop_cons, validateLoop_cons, validateLoop_cons, validateLoop_cons]
  have hcons : ∀ (d : Data) (f g : StructField) (rest : List StructField) (i : Nat),
      missingFrom d (f :: g :: rest) i = missingFrom d [f] i ++ missingFrom d (g :: rest) (i + 1) :=
    fun d f g rest i => missingFrom_cons d f (g :: rest) i
  simp only [hcons, joinNames_append, validateLoop]
  have h0 : ∀ v i n j, stepData v i ⟨n, j, some "true", none⟩ = v := by
    intro v i n j; simp [stepData]
  simp only [h0]
  have h2 : stepData (.ops o) (0 + 1 + 1) ⟨"GrossMargin", some "Gross Margin", some "true", some "true"⟩ = derived (.ops o) := by
    simp [stepData, derived, generateData, Data.fieldInt, Data.setInt]
  rw [h2]
  have h3 : ∀ i n j, i ≠ 2 → missingFrom (derived (.ops o)) [⟨n, j, some "true", none⟩] i = missingFrom (.ops o) [⟨n, j, some "true", none⟩] i := by
    intro i n j hi
    simp only [missingFrom, isMissing, fieldInt_derived _ i hi]
    simp
  rw [h3 _ _ _ (by omega), h3 _ _ _ (by omega), h3 _ _ _ (by omega)]
  have hnil : ∀ (d : Data) (i : Nat), joinNames (missingFrom d [] i) = "" := fun _ _ => rfl
  simp [String.append_assoc, hnil]

theorem validateLoop_noGen : ∀ (fs : List StructField) (i : Nat) (v : Data) (err : String),
    (∀ f ∈ fs, f.generate ≠ some "true") →
    validateLoop fs i v err = (v, err ++ joinNames (missingFrom v fs i))
  | [], i, v, err, _ => by simp [validateLoop, missingFrom, joinNames]
  | f :: rest, i, v, err, h => by
    have hf := h f (List.mem_cons_self _ _)
    have hs : stepData v i f = v := by simp [stepData, hf]
    rw [validateLoop_cons, hs, validateLoop_noGen rest (i + 1) v _
      (fun f1 h1 => h f1 (List.mem_cons_of_mem _ h1)), missingFrom_cons v f rest,
      joinNames_append, String.append_assoc]

/-- `Validate` in closed form: the record it leaves and the names it reports. -/
theorem Validate_eq (d : Data) : Validate d = (derived d, errorOf (missingNames d)) := by
  apply Validate_of_loop
  cases d with
  | ops o => exact validateLoop_ops o
  | entity o => simpa [derived, missingNames] using validateLoop_noGen entityFields 0 (.entity o) "" (by decide)
  | cf o => simpa [derived, missingNames] using validateLoop_noGen cfFields 0 (.cf o) "" (by decide)
  | bs o => simpa [derived, missingNames] using validateLoop_noGen bsFields 0 (.bs o) "" (by decide)

/-! ## `Validate`: C2 -/

theorem missingFrom_eq_nil (d : Data) : ∀ (fs : List StructField) (i : Nat),
    missingFrom d fs i = [] ↔
      ∀ (j : Nat) (f : StructField), fs[j]? = some f → isMissing d (i + j) f = false
  | [], i => by simp [missingFrom]
  | g :: rest, i => by
    simp only [missingFrom]
    constructor
    · intro h j f hj
      by_cases hg : isMissing d i g = true
      · simp [hg] at h
      · rw [if_neg hg] at h
        rcases j with _ | j
        · simp only [List.getElem?_cons_zero, Option.some.injEq] at hj
          subst hj
          simpa using hg
        · have := (missingFrom_eq_nil d rest (i + 1)).mp h j f (by simpa using hj)
          rwa [show i + (j + 1) = i + 1 + j by omega]
    · intro h
      have h0 := h 0 g (by simp)
      rw [Nat.add_zero] at h0
      rw [if_neg (by simp [h0])]
      refine (missingFrom_eq_nil d rest (i + 1)).mpr (fun j f hj => ?_)
      have := h (j + 1) f (by simpa using hj)
      rwa [show i + (j + 1) = i + 1 + j by omega] at this

theorem errorOf_eq_none (names : List String) : errorOf names = none ↔ names = [] := by
  unfold errorOf
  split_ifs with h <;> simp [h]

theorem fields_derived (d : Data) : (derived d).fields = d.fields := by
  cases d with
  | ops o => simp only [derived]; split_ifs <;> rfl
  | entity o => rfl
  | cf o => rfl
  | bs o => rfl

theorem opsFields_generate (i : Nat) (f : StructField) (h : opsFields[i]? = some f) :
    (f.generate = some "true" ↔ i = 2) ∧ (f.Name = "GrossMargin" ↔ i = 2) ∧
      f.required = some "true" := by
  rcases i with _ | _ | _ | _ | _ | _ | i <;> simp [opsFields] at h <;> subst h <;> simp

theorem noGen_of_not_ops (d : Data) (hd : ∀ o, d ≠ .ops o) :
    ∀ f ∈ d.fields, f.generate ≠ some "true" := by
  cases d with
  | ops o => exact absurd rfl (hd o)
  | entity o => exact (by decide : ∀ f ∈ entityFields, f.generate ≠ some "true")
  | cf o => exact (by decide : ∀ f ∈ cfFields, f.generate ≠ some "true")
  | bs o => exact (by decide : ∀ f ∈ bsFields, f.generate ≠ some "true")

theorem generateData_ops (o : OpsData) :
    generateData (.ops o) "GrossMargin" = sub64 o.Revenue o.CostOfSales := by
  simp [generateData]

theorem isMissing_false_iff (d : Data) (i : Nat) (f : StructField)
    (h : d.fields[i]? = some f) :
    isMissing d i f = false ↔
      (f.required = some "true" → d.fieldInt i ≠ 0 ∨
        (f.Name = "GrossMargin" ∧ ∃ o, d = .ops o ∧ sub64 o.Revenue o.CostOfSales ≠ 0)) := by
  by_cases hd : ∃ o, d = .ops o
  · obtain ⟨o, rfl⟩ := hd
    obtain ⟨hg, hn, hr⟩ := opsFields_generate i f h
    by_cases hi : i = 2
    · have hg2 := hg.mpr hi
      have hn2 := hn.mpr hi
      simp only [isMissing, hg2, hn2, hr, generateData_ops]
      by_cases hz : (Data.ops o).fieldInt i = 0 <;>
        by_cases hs : sub64 o.Revenue o.CostOfSales = 0 <;> simp [hz, hs]
    · have hg2 : f.generate ≠ some "true" := fun hh => hi (hg.mp hh)
      have hn2 : f.Name ≠ "GrossMargin" := fun hh => hi (hn.mp hh)
      simp only [isMissing, hr]
      by_cases hz : (Data.ops o).fieldInt i = 0 <;> simp [hz, hg2, hn2]
  · have hd2 : ∀ o, d ≠ .ops o := fun o ho => hd ⟨o, ho⟩
    have hg2 := noGen_of_not_ops d hd2 f (List.getElem?_mem h)
    simp only [isMissing]
    by_cases hz : d.fieldInt i = 0 <;> by_cases hr : f.required = some "true" <;>
      simp [hz, hr, hg2, hd2]

theorem derived_nonzero_iff (d : Data) (i : Nat) (f : StructField)
    (h : d.fields[i]? = some f) :
    (derived d).fieldInt i ≠ 0 ↔
      (d.fieldInt i ≠ 0 ∨
        (f.Name = "GrossMargin" ∧ ∃ o, d = .ops o ∧ sub64 o.Revenue o.CostOfSales ≠ 0)) := by
  by_cases hd : ∃ o, d = .ops o
  · obtain ⟨o, rfl⟩ := hd
    obtain ⟨_, hn, _⟩ := opsFields_generate i f h
    by_cases hi : i = 2
    · subst hi
      have hn2 := hn.mpr rfl
      simp only [derived]
      by_cases hz : o.GrossMargin = 0 <;>
        by_cases hs : sub64 o.Revenue o.CostOfSales = 0 <;>
        simp [hz, hs, hn2, Data.fieldInt]
    · have hn2 : f.Name ≠ "GrossMargin" := fun hh => hi (hn.mp hh)
      rw [fieldInt_derived _ i hi]
      simp [hn2]
  · have hd2 : derived d = d := by
      cases d with
      | ops o => exact absurd ⟨o, rfl⟩ hd
      | entity o => rfl
      | cf o => rfl
      | bs o => rfl
    have hd3 : ∀ o, d ≠ .ops o := fun o ho => hd ⟨o, ho⟩
    rw [hd2]
    simp [hd3]

/-- C2: for every record of the four shapes, `Validate` returns success iff,
after the call, every attribute tagged `required:"true"` is non-zero; and iff,
before the call, every required attribute is non-zero or is `OpsData.GrossMargin`
with `Revenue - CostOfSales` (the `int64` difference) non-zero. -/
theorem Validate_success_iff (d : Data) :
    ((Validate d).2 = none ↔
      ∀ (i : Nat) (f : StructField), (Validate d).1.fields[i]? = some f →
        f.required = some "true" → (Validate d).1.fieldInt i ≠ 0) ∧
    ((Validate d).2 = none ↔
      ∀ (i : Nat) (f : StructField), d.fields[i]? = some f →
        f.required = some "true" → d.fieldInt i ≠ 0 ∨
          (f.Name = "GrossMargin" ∧
            ∃ o, d = .ops o ∧ sub64 o.Revenue o.CostOfSales ≠ 0)) := by
  rw [Validate_eq]
  simp only [errorOf_eq_none, missingNames, missingFrom_eq_nil, Nat.zero_add, fields_derived]
  constructor
  · refine forall_congr' (fun i => forall_congr' (fun f => ?_))
    refine imp_congr_right (fun h => ?_)
    rw [isMissing_false_iff d i f h, derived_nonzero_iff d i f h]
  · refine forall_congr' (fun i => forall_congr' (fun f => ?_))
    refine imp_congr_right (fun h => ?_)
    rw [isMissing_false_iff d i f h]

/-! ## `SetData`: C3, C4, C5, C9 -/

theorem setDataLoop_none (norm : String → Int) (ft : finDataType) (val : String) :
    ∀ (fs : List StructField) (i : Nat) (v : Data), (∀ f ∈ fs, f.json ≠ some ft) →
      setDataLoop norm ft val fs i v = (v, some ("Could not find the field to set: " ++ ft))
  | [], _, _, _ => rfl
  | f :: rest, i, v, h => by
    simp only [setDataLoop]
    rw [if_neg (h f (List.mem_cons_self _ _))]
    exact setDataLoop_none norm ft val rest (i + 1) v
      (fun g hg => h g (List.mem_cons_of_mem _ hg))

theorem setDataLoop_found (norm : String → Int) (ft : finDataType) (val : String) :
    ∀ (fs : List StructField) (i : Nat) (v : Data) (j : Nat) (f : StructField),
      fs[j]? = some f → f.json = some ft →
      (∀ (k : Nat) (g : StructField), k < j → fs[k]? = some g → g.json ≠ some ft) →
      setDataLoop norm ft val fs i v =
        (if v.fieldInt (i + j) = 0 then v.setInt (i + j) (norm val) else v, none)
  | [], _, _, j, f, h, _, _ => by simp at h
  | g :: rest, i, v, 0, f, h, hj, _ => by
    simp only [List.getElem?_cons_zero, Option.some.injEq] at h
    subst h
    simp only [setDataLoop, Nat.add_zero]
    rw [if_pos hj]
    split_ifs <;> rfl
  | g :: rest, i, v, j + 1, f, h, hj, hno => by
    simp only [setDataLoop]
    rw [if_neg (hno 0 g (Nat.succ_pos j) (by simp))]
    rw [setDataLoop_found norm ft val rest (i + 1) v j f (by simpa using h) hj
      (fun k g1 hk hg1 => hno (k + 1) g1 (Nat.succ_lt_succ hk) (by simpa using hg1))]
    rw [show i + 1 + j = i + (j + 1) by omega]

theorem fields_json_nodup (d : Data) : (d.fields.map (fun f => f.json)).Nodup := by
  cases d with
  | ops o => exact (by decide : (opsFields.map (fun f => f.json)).Nodup)
  | entity o => exact (by decide : (entityFields.map (fun f => f.json)).Nodup)
  | cf o => exact (by decide : (cfFields.map (fun f => f.json)).Nodup)
  | bs o => exact (by decide : (bsFields.map (fun f => f.json)).Nodup)

theorem json_first (d : Data) (i : Nat) (f : StructField) (hf : d.fields[i]? = some f)
    (k : Nat) (g : StructField) (hk : k < i) (hg : d.fields[k]? = some g) :
    g.json ≠ f.json := by
  intro heq
  have hn := fields_json_nodup d
  rw [List.nodup_iff_getElem?_ne_getElem?] at hn
  have hi : i < d.fields.length := by
    rcases List.getElem?_eq_some_iff.mp hf with ⟨h, _⟩
    exact h
  have := hn k i hk (by simpa using hi)
  apply this
  simp [List.getElem?_map, hf, hg, heq]

/-- `SetData` on a field type bound to attribute `i` of the record's shape. -/
theorem SetData_bound (norm : String → Int) (d : Data) (ft : finDataType) (val : String)
    (i : Nat) (f : StructField) (hf : d.fields[i]? = some f) (hj : f.json = some ft) :
    SetData norm d ft val =
      (if d.fieldInt i = 0 then d.setInt i (norm val) else d, none) := by
  have := setDataLoop_found norm ft val d.fields 0 d i f hf hj
    (fun k g hk hg => hj ▸ json_first d i f hf k g hk hg)
  simpa [SetData] using this

theorem fieldInt_setInt_same (d : Data) (i : Nat) (x : Int) (hi : i < d.fields.length) :
    (d.setInt i x).fieldInt i = x := by
  cases d with
  | ops o =>
    rcases i with _ | _ | _ | _ | _ | _ | i <;> first | rfl | (simp only [Data.fields, opsFields, List.length_cons, List.length_nil] at hi; omega)
  | entity o =>
    rcases i with _ | i <;> first | rfl | (simp only [Data.fields, entityFields, List.length_cons, List.length_nil] at hi; omega)
  | cf o =>
    rcases i with _ | _ | i <;> first | rfl | (simp only [Data.fields, cfFields, List.length_cons, List.length_nil] at hi; omega)
  | bs o =>
    rcases i with _ | _ | _ | _ | _ | i <;> first | rfl | (simp only [Data.fields, bsFields, List.length_cons, List.length_nil] at hi; omega)

theorem fieldInt_setInt_other (d : Data) (i k : Nat) (x : Int) (h : k ≠ i) :
    (d.setInt i x).fieldInt k = d.fieldInt k := by
  cases d with
  | ops o =>
    rcases i with _ | _ | _ | _ | _ | _ | i <;> rcases k with _ | _ | _ | _ | _ | _ | k <;>
      first | rfl | exact absurd rfl h
  | entity o =>
    rcases i with _ | i <;> rcases k with _ | k <;> first | rfl | exact absurd rfl h
  | cf o =>
    rcases i with _ | _ | i <;> rcases k with _ | _ | k <;> first | rfl | exact absurd rfl h
  | bs o =>
    rcases i with _ | _ | _ | _ | _ | i <;> rcases k with _ | _ | _ | _ | _ | k <;>
      first | rfl | exact absurd rfl h

theorem fields_setInt (d : Data) (i : Nat) (x : Int) : (d.setInt i x).fields = d.fields := by
  cases d with
  | ops o => rcases i with _ | _ | _ | _ | _ | _ | i <;> rfl
  | entity o => rcases i with _ | i <;> rfl
  | cf o => rcases i with _ | _ | i <;> rfl
  | bs o => rcases i with _ | _ | _ | _ | _ | i <;> rfl

theorem lt_length_of_getElem? {α : Type} (l : List α) (i : Nat) (a : α)
    (h : l[i]? = some a) : i < l.length := by
  rcases List.getElem?_eq_some_iff.mp h with ⟨h1, _⟩
  exact h1

/-- C3: first match wins. For a field type bound to attribute `i` of the record's
shape, if the attribute is already non-zero then `SetData` leaves the whole
record unchanged; hence populating the same field twice, the first time with a
value that normalizes to a non-zero number, leaves the first value intact. -/
theorem SetData_first_match_wins (norm : String → Int) (d : Data) (ft : finDataType)
    (i : Nat) (f : StructField) (hf : d.fields[i]? = some f) (hj : f.json = some ft) :
    (d.fieldInt i ≠ 0 → ∀ val : String, (SetData norm d ft val).1 = d) ∧
    (∀ v1 v2 : String, d.fieldInt i = 0 → norm v1 ≠ 0 →
      ((SetData norm d ft v1).1).fieldInt i = norm v1 ∧
      (SetData norm (SetData norm d ft v1).1 ft v2).1 = (SetData norm d ft v1).1) := by
  constructor
  · intro hz val
    rw [SetData_bound norm d ft val i f hf hj, if_neg hz]
  · intro v1 v2 hz hn
    have h1 : (SetData norm d ft v1).1 = d.setInt i (norm v1) := by
      rw [SetData_bound norm d ft v1 i f hf hj, if_pos hz]
    have hi := lt_length_of_getElem? _ _ _ hf
    have h2 : (d.setInt i (norm v1)).fieldInt i = norm v1 := fieldInt_setInt_same d i _ hi
    rw [h1]
    refine ⟨h2, ?_⟩
    rw [SetData_bound norm (d.setInt i (norm v1)) ft v2 i f (by rw [fields_setInt]; exact hf) hj,
      if_neg (by rw [h2]; exact hn)]

/-- C3 on an empty balance sheet: "5" is stored in `LDebt` first (the normalizer
here is the length of the text), a second value "77" for the same field is
ignored. -/
theorem SetData_first_match_wins_witness :
    newBSData.fields[0]? = some ⟨"LDebt", some "Long-Term debt", some "true", none⟩ ∧
    newBSData.fieldInt 0 = 0 ∧
    ((SetData (fun s => (s.length : Int)) newBSData finDataLDebt "5").1).fieldInt 0 = 1 ∧
    (SetData (fun s => (s.length : Int))
      (SetData (fun s => (s.length : Int)) newBSData finDataLDebt "5").1 finDataLDebt "77").1 =
      (SetData (fun s => (s.length : Int)) newBSData finDataLDebt "5").1 :=
  ⟨rfl, rfl, (SetData_first_match_wins (fun s => (s.length : Int)) newBSData finDataLDebt 0
    ⟨"LDebt", some "Long-Term debt", some "true", none⟩ rfl rfl).2 "5" "77" rfl (by decide)⟩

/-- C4: for a field type bound to attribute `i` of the record's shape, if the
attribute is zero then `SetData` stores `normalizeNumber val` in that attribute,
reports no error, and leaves every other attribute (and the shape) unchanged. -/
theorem SetData_stores (norm : String → Int) (d : Data) (ft : finDataType) (val : String)
    (i : Nat) (f : StructField) (hf : d.fields[i]? = some f) (hj : f.json = some ft)
    (hz : d.fieldInt i = 0) :
    (SetData norm d ft val).2 = none ∧
    ((SetData norm d ft val).1).fieldInt i = norm val ∧
    (∀ k : Nat, k ≠ i → ((SetData norm d ft val).1).fieldInt k = d.fieldInt k) ∧
    ((SetData norm d ft val).1).fields = d.fields := by
  rw [SetData_bound norm d ft val i f hf hj, if_pos hz]
  exact ⟨rfl, fieldInt_setInt_same d i _ (lt_length_of_getElem? _ _ _ hf),
    fun k hk => fieldInt_setInt_other d i k _ hk, fields_setInt d i _⟩

/-- C4 on an operations record with only `Revenue` set: "600" goes to
`CostOfSales` (index 1). -/
theorem SetData_stores_witness :
    (Data.ops ⟨1000, 0, 0, 0, 0, 0⟩).fields[1]? =
      some ⟨"CostOfSales", some "Cost Of Revenue", some "true", none⟩ ∧
    (Data.ops ⟨1000, 0, 0, 0, 0, 0⟩).fieldInt 1 = 0 ∧
    (SetData (fun s => (s.length : Int)) (.ops ⟨1000, 0, 0, 0, 0, 0⟩) finDataCostOfRevenue
      "600").2 = none ∧
    ((SetData (fun s => (s.length : Int)) (.ops ⟨1000, 0, 0, 0, 0, 0⟩) finDataCostOfRevenue
      "600").1).fieldInt 1 = 3 :=
  have h := SetData_stores (fun s => (s.length : Int)) (.ops ⟨1000, 0, 0, 0, 0, 0⟩)
    finDataCostOfRevenue "600" 1 ⟨"CostOfSales", some "Cost Of Revenue", some "true", none⟩
    rfl rfl rfl
  ⟨rfl, rfl, h.1, h.2.1⟩

/-- C5: `SetData` signals the field-not-applicable error iff no attribute of the
record's shape carries a json tag equal to the field type, and then the record
is left unchanged; otherwise it returns `nil`. `Revenue` on a `BSData` record and
`finDataUnknown` on any record are such cases. -/
theorem SetData_not_applicable_iff (norm : String → Int) (d : Data) (ft : finDataType)
    (val : String) :
    ((SetData norm d ft val).2 = some ("Could not find the field to set: " ++ ft) ↔
      ∀ f ∈ d.fields, f.json ≠ some ft) ∧
    ((SetData norm d ft val).2 ≠ none ↔ ∀ f ∈ d.fields, f.json ≠ some ft) ∧
    ((∀ f ∈ d.fields, f.json ≠ some ft) → (SetData norm d ft val).1 = d) ∧
    (∀ b : BSData, (SetData norm (.bs b) finDataRevenue val).2 ≠ none) ∧
    (∀ r : Data, (SetData norm r finDataUnknown val).2 ≠ none) := by
  have hnone : (∀ f ∈ d.fields, f.json ≠ some ft) →
      SetData norm d ft val = (d, some ("Could not find the field to set: " ++ ft)) :=
    fun h => setDataLoop_none norm ft val d.fields 0 d h
  have hsome : (¬ ∀ f ∈ d.fields, f.json ≠ some ft) → (SetData norm d ft val).2 = none := by
    intro h
    push_neg at h
    obtain ⟨f, hf, hj⟩ := h
    obtain ⟨i, hi⟩ := List.getElem?_of_mem hf
    rw [SetData_bound norm d ft val i f hi hj]
  refine ⟨⟨fun h => ?_, fun h => by rw [hnone h]⟩, ⟨fun h => ?_, fun h => by rw [hnone h]; simp⟩,
    fun h => by rw [hnone h], ?_, ?_⟩
  · by_contra hc
    rw [hsome hc] at h
    exact Option.noConfusion h
  · by_contra hc
    exact h (hsome hc)
  · intro b
    have : ∀ f ∈ (Data.bs b).fields, f.json ≠ some finDataRevenue :=
      (by decide : ∀ f ∈ bsFields, f.json ≠ some finDataRevenue)
    rw [show SetData norm (.bs b) finDataRevenue val = _ from
      setDataLoop_none norm finDataRevenue val _ 0 _ this]
    simp
  · intro r
    have : ∀ f ∈ r.fields, f.json ≠ some finDataUnknown := by
      cases r with
      | ops o => exact (by decide : ∀ f ∈ opsFields, f.json ≠ some finDataUnknown)
      | entity o => exact (by decide : ∀ f ∈ entityFields, f.json ≠ some finDataUnknown)
      | cf o => exact (by decide : ∀ f ∈ cfFields, f.json ≠ some finDataUnknown)
      | bs o => exact (by decide : ∀ f ∈ bsFields, f.json ≠ some finDataUnknown)
    rw [show SetData norm r finDataUnknown val = _ from
      setDataLoop_none norm finDataUnknown val _ 0 _ this]
    simp

/-- C9 as stated fails: on an empty balance sheet the first call stores a value
in `LDebt` (the normalizer here is the length of the text) and the second call
finds it already set and stores nothing, yet both return `nil`; the two results
are equal. -/
theorem SetData_result_same_counterexample :
    (SetData (fun s => (s.length : Int)) newBSData finDataLDebt "5").1 = .bs ⟨1, 0, 0, 0, 0⟩ ∧
    (SetData (fun s => (s.length : Int)) (.bs ⟨1, 0, 0, 0, 0⟩) finDataLDebt "77").1 =
      .bs ⟨1, 0, 0, 0, 0⟩ ∧
    (SetData (fun s => (s.length : Int)) newBSData finDataLDebt "5").2 =
      (SetData (fun s => (s.length : Int)) (.bs ⟨1, 0, 0, 0, 0⟩) finDataLDebt "77").2 := by
  decide

/-- C9 amended: the result of `SetData` tells only whether the field type is
bound to an attribute of the record's shape. When it is, the call returns `nil`
both when it stores a value into the unset attribute and when the attribute is
already non-zero and nothing is stored. -/
theorem SetData_result_nil_of_bound (norm : String → Int) (d : Data) (ft : finDataType)
    (val : String) (i : Nat) (f : StructField) (hf : d.fields[i]? = some f)
    (hj : f.json = some ft) :
    (SetData norm d ft val).2 = none ∧
    (d.fieldInt i = 0 → (SetData norm d ft val).1 = d.setInt i (norm val)) ∧
    (d.fieldInt i ≠ 0 → (SetData norm d ft val).1 = d) := by
  rw [SetData_bound norm d ft val i f hf hj]
  refine ⟨rfl, fun hz => by rw [if_pos hz], fun hz => by rw [if_neg hz]⟩

/-- C9 amended, on a balance sheet whose `LDebt` is already 1. -/
theorem SetData_result_nil_of_bound_witness :
    (Data.bs ⟨1, 0, 0, 0, 0⟩).fields[0]? =
      some ⟨"LDebt", some "Long-Term debt", some "true", none⟩ ∧
    (SetData (fun s => (s.length : Int)) (.bs ⟨1, 0, 0, 0, 0⟩) finDataLDebt "77").2 = none :=
  ⟨rfl, (SetData_result_nil_of_bound (fun s => (s.length : Int)) (.bs ⟨1, 0, 0, 0, 0⟩)
    finDataLDebt "77" 0 ⟨"LDebt", some "Long-Term debt", some "true", none⟩ rfl rfl).1⟩

/-! ## Derivation and completeness: C6, C7 -/

theorem sub64_eq_zero_iff (a b : Int) (ha : inInt64 a) (hb : inInt64 b) :
    sub64 a b = 0 ↔ a = b := by
  unfold inInt64 at ha hb
  unfold sub64 wrap64
  norm_num at ha hb ⊢
  omega

theorem sub64_eq_sub (a b : Int) (h : inInt64 (a - b)) : sub64 a b = a - b := by
  unfold inInt64 at h
  unfold sub64 wrap64
  norm_num at h ⊢
  omega

theorem mem_missingFrom (d : Data) (n : String) : ∀ (fs : List StructField) (i : Nat),
    n ∈ missingFrom d fs i ↔
      ∃ (j : Nat) (f : StructField), fs[j]? = some f ∧ isMissing d (i + j) f = true ∧ f.Name = n
  | [], i => by simp [missingFrom]
  | g :: rest, i => by
    have ih := mem_missingFrom d n rest (i + 1)
    constructor
    · intro h
      simp only [missingFrom] at h
      by_cases hg : isMissing d i g = true
      · rw [if_pos hg] at h
        rcases List.mem_cons.mp h with h | h
        · exact ⟨0, g, by simp, by simpa using hg, h.symm⟩
        · obtain ⟨j, f, hj, hm, hn⟩ := ih.mp h
          exact ⟨j + 1, f, by simpa using hj, by rwa [show i + (j + 1) = i + 1 + j by omega], hn⟩
      · rw [if_neg hg] at h
        obtain ⟨j, f, hj, hm, hn⟩ := ih.mp h
        exact ⟨j + 1, f, by simpa using hj, by rwa [show i + (j + 1) = i + 1 + j by omega], hn⟩
    · rintro ⟨j, f, hj, hm, hn⟩
      simp only [missingFrom]
      rcases j with _ | j
      · simp only [List.getElem?_cons_zero, Option.some.injEq] at hj
        subst hj
        rw [Nat.add_zero] at hm
        rw [if_pos hm]
        exact List.mem_cons.mpr (Or.inl hn.symm)
      · have : n ∈ missingFrom d rest (i + 1) :=
          ih.mpr ⟨j, f, by simpa using hj, by rwa [show i + 1 + j = i + (j + 1) by omega], hn⟩
        split_ifs
        · exact List.mem_cons_of_mem _ this
        · exact this

theorem GrossMargin_mem_missingNames (d : Data) :
    "GrossMargin" ∈ missingNames d ↔
      ∃ o, d = .ops o ∧ o.GrossMargin = 0 ∧ sub64 o.Revenue o.CostOfSales = 0 := by
  unfold missingNames
  rw [mem_missingFrom]
  constructor
  · rintro ⟨j, f, hj, hm, hn⟩
    rw [Nat.zero_add] at hm
    cases d with
    | ops o =>
      obtain ⟨hg, hname, hr⟩ := opsFields_generate j f hj
      have hj2 : j = 2 := hname.mp hn
      subst hj2
      have hg2 := hg.mpr rfl
      refine ⟨o, rfl, ?_⟩
      simp only [isMissing, hg2, hn, hr, generateData_ops] at hm
      simpa [Data.fieldInt] using hm
    | entity o =>
      exact absurd hn ((by decide : ∀ f ∈ entityFields, f.Name ≠ "GrossMargin") f
        (List.getElem?_mem hj))
    | cf o =>
      exact absurd hn ((by decide : ∀ f ∈ cfFields, f.Name ≠ "GrossMargin") f
        (List.getElem?_mem hj))
    | bs o =>
      exact absurd hn ((by decide : ∀ f ∈ bsFields, f.Name ≠ "GrossMargin") f
        (List.getElem?_mem hj))
  · rintro ⟨o, rfl, hz, hs⟩
    refine ⟨2, ⟨"GrossMargin", some "Gross Margin", some "true", some "true"⟩, rfl, ?_, rfl⟩
    simp [isMissing, generateData_ops, Data.fieldInt, hz, hs]

theorem filter_missingFrom (d : Data) : ∀ (fs : List StructField) (i : Nat),
    (∀ f ∈ fs, (f.generate = some "true" ↔ f.Name = "GrossMargin")) →
    (missingFrom d fs i).filter (fun n => decide (n ≠ "GrossMargin")) = zeroNoRuleFrom d fs i
  | [], _, _ => rfl
  | g :: rest, i, h => by
    have ih := filter_missingFrom d rest (i + 1) (fun f hf => h f (List.mem_cons_of_mem _ hf))
    have hg := h g (List.mem_cons_self _ _)
    simp only [ne_eq, decide_not] at ih
    simp only [missingFrom, zeroNoRuleFrom, isMissing, ne_eq, decide_not]
    by_cases hgen : g.generate = some "true"
    · have hname := hg.mp hgen
      split_ifs <;> simp_all
    · have hname : g.Name ≠ "GrossMargin" := fun hh => hgen (hg.mpr hh)
      by_cases hz : d.fieldInt i = 0 <;> by_cases hr : g.required = some "true" <;>
        simp [hz, hr, hgen, hname, ih]

theorem fields_generate_iff_name (d : Data) :
    ∀ f ∈ d.fields, (f.generate = some "true" ↔ f.Name = "GrossMargin") := by
  cases d with
  | ops o => exact (by decide : ∀ f ∈ opsFields, (f.generate = some "true" ↔ f.Name = "GrossMargin"))
  | entity o =>
    exact (by decide : ∀ f ∈ entityFields, (f.generate = some "true" ↔ f.Name = "GrossMargin"))
  | cf o => exact (by decide : ∀ f ∈ cfFields, (f.generate = some "true" ↔ f.Name = "GrossMargin"))
  | bs o => exact (by decide : ∀ f ∈ bsFields, (f.generate = some "true" ↔ f.Name = "GrossMargin"))

/-- C6 as stated fails in its example: a record with Revenue = 1000,
CostOfSales = 600 and everything else unset gets GrossMargin = 400, but
`Validate` does not report ok: the three other required attributes are missing. -/
theorem Validate_derivation_counterexample :
    Validate (.ops ⟨1000, 600, 0, 0, 0, 0⟩) =
      (.ops ⟨1000, 600, 400, 0, 0, 0⟩,
        some "[OpIncome,OpExpense,NetIncome,] attributes did not parse") := by
  decide

/-- C6 amended: for every `OpsData` record whose GrossMargin is 0 and whose
Revenue and CostOfSales (two `int64` values) differ, `Validate` stores
GrossMargin = Revenue - CostOfSales (the `int64` difference, which is the
integer difference whenever that fits) and does not report GrossMargin as
missing; with Revenue = 1000, CostOfSales = 600, GrossMargin unset and the three
other required attributes non-zero it yields GrossMargin = 400 and reports ok. -/
theorem Validate_derives_GrossMargin (o : OpsData) (hg : o.GrossMargin = 0)
    (hr : inInt64 o.Revenue) (hc : inInt64 o.CostOfSales)
    (hne : o.Revenue ≠ o.CostOfSales) :
    (Validate (.ops o)).1 = .ops { o with GrossMargin := sub64 o.Revenue o.CostOfSales } ∧
    (inInt64 (o.Revenue - o.CostOfSales) →
      sub64 o.Revenue o.CostOfSales = o.Revenue - o.CostOfSales) ∧
    (Validate (.ops o)).2 = errorOf (missingNames (.ops o)) ∧
    "GrossMargin" ∉ missingNames (.ops o) ∧
    (∀ oi oe n : Int, oi ≠ 0 → oe ≠ 0 → n ≠ 0 →
      Validate (.ops ⟨1000, 600, 0, oi, oe, n⟩) = (.ops ⟨1000, 600, 400, oi, oe, n⟩, none)) := by
  have hs : sub64 o.Revenue o.CostOfSales ≠ 0 :=
    fun h => hne ((sub64_eq_zero_iff _ _ hr hc).mp h)
  refine ⟨?_, sub64_eq_sub _ _, ?_, ?_, ?_⟩
  · rw [Validate_eq]
    simp [derived, hg, hs]
  · rw [Validate_eq]
  · rw [GrossMargin_mem_missingNames]
    rintro ⟨o1, ho, _, hs1⟩
    cases ho
    exact hs hs1
  · intro oi oe n hoi hoe hn
    have h400 : sub64 1000 600 = 400 := by decide
    rw [Validate_eq]
    simp [derived, errorOf, missingNames, missingFrom, isMissing, Data.fields, opsFields,
      Data.fieldInt, generateData, h400, hoi, hoe, hn]

/-- C6 amended, at Revenue = 1000, CostOfSales = 600 and the other attributes 1. -/
theorem Validate_derives_GrossMargin_witness :
    inInt64 1000 ∧ inInt64 600 ∧
    (Validate (.ops ⟨1000, 600, 0, 1, 1, 1⟩)).1 =
      .ops ⟨1000, 600, sub64 1000 600, 1, 1, 1⟩ :=
  ⟨by decide, by decide,
   (Validate_derives_GrossMargin ⟨1000, 600, 0, 1, 1, 1⟩ rfl (by decide) (by decide)
     (by decide)).1⟩

/-- C7 as stated fails: in this `OpsData` record exactly two required attributes
without a derivation rule are zero (OpIncome, OpExpense), yet `Validate` reports
three names, because GrossMargin is zero and Revenue - CostOfSales is zero. -/
theorem Validate_two_missing_counterexample :
    requiredZeroNoRule (.ops ⟨5, 5, 0, 0, 0, 1⟩) = ["OpIncome", "OpExpense"] ∧
    (Validate (.ops ⟨5, 5, 0, 0, 0, 1⟩)).2 =
      some "[GrossMargin,OpIncome,OpExpense,] attributes did not parse" ∧
    (Validate (.ops ⟨5, 5, 0, 0, 0, 1⟩)).2 ≠ errorOf ["OpIncome", "OpExpense"] := by
  decide

/-- C7 amended: for every record of any of the four shapes in which exactly two
required attributes without a derivation rule are zero, `Validate` fails and the
names it reports are those two attributes, in field order, and no other name
except GrossMargin, which is reported too exactly when the record is an
`OpsData` whose GrossMargin is 0 and whose Revenue - CostOfSales is 0; whatever
the values of the record's other attributes. -/
theorem Validate_reports_two_missing (d : Data) (a b : String)
    (h : requiredZeroNoRule d = [a, b]) :
    (Validate d).2 ≠ none ∧
    (Validate d).2 = errorOf (missingNames d) ∧
    (missingNames d).filter (fun n => decide (n ≠ "GrossMargin")) = [a, b] ∧
    ("GrossMargin" ∈ missingNames d ↔
      ∃ o, d = .ops o ∧ o.GrossMargin = 0 ∧ sub64 o.Revenue o.CostOfSales = 0) ∧
    ((¬ ∃ o, d = .ops o ∧ o.GrossMargin = 0 ∧ sub64 o.Revenue o.CostOfSales = 0) →
      (Validate d).2 = errorOf [a, b] ∧
      errorOf [a, b] = some ("[" ++ (a ++ "," ++ (b ++ "," ++ "")) ++ "] " ++
        "attributes did not parse")) := by
  have hf : (missingNames d).filter (fun n => decide (n ≠ "GrossMargin")) = [a, b] := by
    rw [← h]
    exact filter_missingFrom d d.fields 0 (fields_generate_iff_name d)
  have hne : missingNames d ≠ [] := by
    intro h0
    rw [h0] at hf
    simp at hf
  refine ⟨?_, by rw [Validate_eq], hf, GrossMargin_mem_missingNames d, ?_⟩
  · rw [Validate_eq]
    simp [errorOf_eq_none, hne]
  · intro hno
    have hmem : "GrossMargin" ∉ missingNames d :=
      fun hm => hno ((GrossMargin_mem_missingNames d).mp hm)
    have hall : (missingNames d).filter (fun n => decide (n ≠ "GrossMargin")) = missingNames d := by
      rw [List.filter_eq_self]
      intro n hn
      simp only [ne_eq, decide_not, Bool.not_eq_eq_eq_not, Bool.not_true, decide_eq_false_iff_not]
      rintro rfl
      exact hmem hn
    rw [Validate_eq]
    refine ⟨by rw [← hall, hf], ?_⟩
    simp [errorOf, joinNames]

/-- C7 amended, on a balance sheet with only `CLiab` and `Deferred` set. -/
theorem Validate_reports_two_missing_witness :
    requiredZeroNoRule (.bs ⟨0, 7, 3, 2, 0⟩) = ["LDebt", "Retained"] ∧
    (Validate (.bs ⟨0, 7, 3, 2, 0⟩)).2 = errorOf ["LDebt", "Retained"] ∧
    errorOf ["LDebt", "Retained"] = some "[LDebt,Retained,] attributes did not parse" :=
  ⟨by decide,
   ((Validate_reports_two_missing (.bs ⟨0, 7, 3, 2, 0⟩) "LDebt" "Retained" (by decide)).2.2.2.2
     (by rintro ⟨o, ho, _⟩; cases ho)).1,
   by decide⟩

/-! ## `getBSData`: C10 -/

/-- The two outcomes of `parseTableRow` are the two cases of `rowLoop`: a row
with a `nil` error while rows remain, the stream's error afterwards. -/
theorem parseTableRow_cases (data : List String) (rest : List (List String)) (e : String) :
    parseTableRow ⟨data :: rest, e⟩ = ((data, none), ⟨rest, e⟩) ∧
    parseTableRow ⟨[], e⟩ = (([], some e), ⟨[], e⟩) :=
  ⟨rfl, rfl⟩

/-- C10 as stated fails: the tokenizer fails at once with the stream error
"unexpected EOF" (not `io.EOF`), and `getBSData` returns the validation error of
the empty balance sheet instead of that error. -/
theorem getBSData_stream_error_counterexample :
    (parseTableRow ⟨[], "unexpected EOF"⟩).1.2 = some "unexpected EOF" ∧
    "unexpected EOF" ≠ ioEOF ∧
    getBSData (dataDefHelpers Char.toLower (fun s => (s.length : Int))) newBSData
        ⟨[], "unexpected EOF"⟩ =
      (newBSData, some "[LDebt,SDebt,CLiab,Retained,] attributes did not parse") ∧
    (getBSData (dataDefHelpers Char.toLower (fun s => (s.length : Int))) newBSData
        ⟨[], "unexpected EOF"⟩).2 ≠ some "unexpected EOF" := by
  decide

/-- C10 amended: when the row tokenizer fails, with a stream error or with plain
end-of-stream alike, `getBSData` leaves the loop and returns the record together
with the result of `validate` on it; the tokenizer's error is not propagated, and
the result is the same whatever that error is. -/
theorem getBSData_result_is_validate {σ : Type} (h : Helpers σ) (new : σ) (z : Tokenizer) :
    getBSData h new z = h.validate (rowLoop h z.rows new).1 ∧
    (∀ e : String, getBSData h new { z with err := e } = getBSData h new z) :=
  ⟨rfl, fun _ => rfl⟩

/-! ## `Validate`: C14, C18, C20 -/

theorem sub64_self (a : Int) : sub64 a a = 0 := by
  unfold sub64 wrap64
  norm_num

theorem derived_derived (d : Data) : derived (derived d) = derived d := by
  cases d with
  | ops o =>
    by_cases h : o.GrossMargin = 0 ∧ sub64 o.Revenue o.CostOfSales ≠ 0
    · have h2 : sub64 o.Revenue o.CostOfSales ≠ 0 := h.2
      simp [derived, h, h2]
    · simp [derived, h]
  | entity o => rfl
  | cf o => rfl
  | bs o => rfl

theorem generateData_derived (d : Data) (name : String) :
    generateData (derived d) name = generateData d name := by
  cases d with
  | ops o =>
    simp only [derived]
    split_ifs <;> rfl
  | entity o => rfl
  | cf o => rfl
  | bs o => rfl

theorem isMissing_derived (d : Data) (i : Nat) (f : StructField)
    (h : d.fields[i]? = some f) :
    isMissing (derived d) i f = isMissing d i f := by
  by_cases hi : i = 2
  · subst hi
    cases d with
    | ops o =>
      have hf : f = ⟨"GrossMargin", some "Gross Margin", some "true", some "true"⟩ := by
        simpa [Data.fields, opsFields] using h.symm
      subst hf
      simp only [isMissing, generateData_derived, generateData_ops]
      simp only [derived]
      by_cases hz : o.GrossMargin = 0 <;>
        by_cases hs : sub64 o.Revenue o.CostOfSales = 0 <;>
        simp [hz, hs, Data.fieldInt]
    | entity o => rfl
    | cf o => rfl
    | bs o => rfl
  · simp only [isMissing, generateData_derived, fieldInt_derived d i hi]

theorem missingFrom_congr (d1 d2 : Data) : ∀ (fs : List StructField) (i : Nat),
    (∀ (j : Nat) (f : StructField), fs[j]? = some f →
      isMissing d1 (i + j) f = isMissing d2 (i + j) f) →
    missingFrom d1 fs i = missingFrom d2 fs i
  | [], _, _ => rfl
  | g :: rest, i, h => by
    have h0 := h 0 g (by simp)
    rw [Nat.add_zero] at h0
    have ih := missingFrom_congr d1 d2 rest (i + 1) (fun j f hj => by
      have := h (j + 1) f (by simpa using hj)
      rwa [show i + (j + 1) = i + 1 + j by omega] at this)
    simp only [missingFrom, h0, ih]

theorem missingNames_derived (d : Data) : missingNames (derived d) = missingNames d := by
  unfold missingNames
  rw [fields_derived]
  exact missingFrom_congr _ _ _ 0 (fun j f hj => by
    rw [Nat.zero_add]; exact isMissing_derived d j f hj)

/-- `Validate` applied to the record a first call left gives the first call's
result again. -/
theorem Validate_Validate (d : Data) : Validate (Validate d).1 = Validate d := by
  rw [Validate_eq d, Validate_eq (derived d), derived_derived, missingNames_derived]

theorem rowLoop_cons {σ : Type} (h : Helpers σ) (data : List String)
    (rest : List (List String)) (r : σ) :
    rowLoop h (data :: rest) r =
      if (h.validate (processRow h data r)).2 = none then
        ((h.validate (processRow h data r)).1, rest)
      else rowLoop h rest (h.validate (processRow h data r)).1 := by
  simp only [rowLoop]

theorem lastCheck_validate {σ : Type} (h : Helpers σ)
    (hidem : ∀ r : σ, h.validate (h.validate r).1 = h.validate r) :
    ∀ (rows : List (List String)) (r : σ) (res : σ × Option String),
      lastCheck h rows r = some res → h.validate (rowLoop h rows r).1 = res
  | [], _, _, hl => by simp [lastCheck] at hl
  | data :: rest, r, res, hl => by
    rw [rowLoop_cons]
    simp only [lastCheck] at hl
    by_cases hp : (h.validate (processRow h data r)).2 = none
    · rw [if_pos hp] at hl ⊢
      simp only [Option.some.injEq] at hl
      rw [← hl]
      exact hidem _
    · rw [if_neg hp] at hl ⊢
      cases hrest : lastCheck h rest (h.validate (processRow h data r)).1 with
      | none =>
        rw [hrest] at hl
        simp only [Option.some.injEq] at hl
        cases rest with
        | nil =>
          rw [← hl]
          exact hidem _
        | cons d2 rest2 =>
          simp only [lastCheck] at hrest
          split_ifs at hrest
          split at hrest <;> simp at hrest
      | some r2 =>
        rw [hrest] at hl
        simp only [Option.some.injEq] at hl
        subst hl
        exact lastCheck_validate h hidem rest _ _ hrest

/-- C14: for every `OpsData` record whose GrossMargin is 0 and whose Revenue
equals CostOfSales (both 0 included), `Validate` leaves GrossMargin at 0, reports
GrossMargin among the missing attributes and returns failure, even when every
other required attribute is non-zero. -/
theorem Validate_GrossMargin_underivable (o : OpsData) (hg : o.GrossMargin = 0)
    (he : o.Revenue = o.CostOfSales) :
    (Validate (.ops o)).1 = .ops o ∧
    (Validate (.ops o)).2 = errorOf (missingNames (.ops o)) ∧
    "GrossMargin" ∈ missingNames (.ops o) ∧
    (Validate (.ops o)).2 ≠ none ∧
    (o.Revenue ≠ 0 → o.OpIncome ≠ 0 → o.OpExpense ≠ 0 → o.NetIncome ≠ 0 →
      (Validate (.ops o)).2 = some "[GrossMargin,] attributes did not parse") := by
  have hs : sub64 o.Revenue o.CostOfSales = 0 := by rw [he]; exact sub64_self _
  have hm : "GrossMargin" ∈ missingNames (.ops o) :=
    (GrossMargin_mem_missingNames _).mpr ⟨o, rfl, hg, hs⟩
  have hne : missingNames (.ops o) ≠ [] := fun h0 => by rw [h0] at hm; simp at hm
  rw [Validate_eq]
  refine ⟨by simp [derived, hs], rfl, hm, by simp [errorOf_eq_none, hne], ?_⟩
  intro h1 h2 h3 h4
  have h5 : o.CostOfSales ≠ 0 := he ▸ h1
  simp [errorOf, joinNames, missingNames, missingFrom, isMissing, Data.fields, opsFields,
    Data.fieldInt, generateData, hg, hs, h1, h2, h3, h4, h5]

/-- C14 at Revenue = CostOfSales = 5 with the other attributes set. -/
theorem Validate_GrossMargin_underivable_witness :
    (Validate (.ops ⟨5, 5, 0, 1, 2, 3⟩)).1 = .ops ⟨5, 5, 0, 1, 2, 3⟩ ∧
    (Validate (.ops ⟨5, 5, 0, 1, 2, 3⟩)).2 = some "[GrossMargin,] attributes did not parse" :=
  have h := Validate_GrossMargin_underivable ⟨5, 5, 0, 1, 2, 3⟩ rfl rfl
  ⟨h.1, h.2.2.2.2 (by decide) (by decide) (by decide) (by decide)⟩

/-- C18: `Validate` changes no attribute other than `OpsData.GrossMargin`, and
that one only when it is 0: every `EntityData`, `CfData` and `BSData` record is
left unchanged (so a balance sheet is mutated only by the populator), and the
non-required `BSData.Deferred` never affects the result of `Validate`. -/
theorem Validate_frame :
    (∀ e : EntityData, (Validate (.entity e)).1 = .entity e) ∧
    (∀ c : CfData, (Validate (.cf c)).1 = .cf c) ∧
    (∀ b : BSData, (Validate (.bs b)).1 = .bs b) ∧
    (∀ o : OpsData, ∃ g : Int, (Validate (.ops o)).1 = .ops { o with GrossMargin := g }) ∧
    (∀ o : OpsData, o.GrossMargin ≠ 0 → (Validate (.ops o)).1 = .ops o) ∧
    (∀ (d : Data) (i : Nat), (Validate d).1.fieldInt i ≠ d.fieldInt i →
      (∃ o, d = .ops o) ∧ i = 2 ∧ d.fieldInt i = 0) ∧
    (∀ (b : BSData) (x : Int),
      (Validate (.bs { b with Deferred := x })).2 = (Validate (.bs b)).2) := by
  refine ⟨fun e => by rw [Validate_eq]; rfl, fun c => by rw [Validate_eq]; rfl,
    fun b => by rw [Validate_eq]; rfl, fun o => ?_, fun o ho => ?_, fun d i hne => ?_,
    fun b x => ?_⟩
  · rw [Validate_eq]
    simp only [derived]
    split_ifs
    · exact ⟨_, rfl⟩
    · exact ⟨o.GrossMargin, rfl⟩
  · rw [Validate_eq]
    simp [derived, ho]
  · rw [Validate_eq] at hne
    have hi : i = 2 := by
      by_contra hi
      exact hne (fieldInt_derived d i hi)
    subst hi
    cases d with
    | ops o =>
      refine ⟨⟨o, rfl⟩, rfl, ?_⟩
      by_contra hz
      have hz2 : ¬ o.GrossMargin = 0 := hz
      apply hne
      simp [derived, hz2]
    | entity e => exact absurd rfl hne
    | cf c => exact absurd rfl hne
    | bs b => exact absurd rfl hne
  · rw [Validate_eq, Validate_eq]
    simp [missingNames, missingFrom, isMissing, Data.fields, bsFields, Data.fieldInt]

/-- C20: `Validate` is idempotent: a second call returns the same result (same
success or same list of missing names) as the first and leaves the record as
the first call left it; hence the `Validate` call in the return statement of
`getBSData` agrees with the last one made inside the loop. -/
theorem Validate_idempotent :
    (∀ d : Data, Validate (Validate d).1 = ((Validate d).1, (Validate d).2)) ∧
    (∀ (lower : Char → Char) (normalizeNumber : String → Int) (new : Data) (z : Tokenizer)
      (res : Data × Option String),
      lastCheck (dataDefHelpers lower normalizeNumber) z.rows new = some res →
      getBSData (dataDefHelpers lower normalizeNumber) new z = res) := by
  refine ⟨fun d => by rw [Validate_Validate], fun lower norm new z res hl => ?_⟩
  exact lastCheck_validate (dataDefHelpers lower norm) (fun r => Validate_Validate r)
    z.rows new res hl

/-! ## The set-once invariant: C15 -/

theorem SetData_cases (norm : String → Int) (d : Data) (ft : finDataType) (val : String) :
    (SetData norm d ft val).1 = d ∨
    ∃ j : Nat, d.fieldInt j = 0 ∧ (SetData norm d ft val).1 = d.setInt j (norm val) := by
  by_cases h : ∀ f ∈ d.fields, f.json ≠ some ft
  · left
    rw [show SetData norm d ft val = _ from setDataLoop_none norm ft val d.fields 0 d h]
  · push_neg at h
    obtain ⟨f, hf, hj⟩ := h
    obtain ⟨i, hi⟩ := List.getElem?_of_mem hf
    rw [SetData_bound norm d ft val i f hi hj]
    by_cases hz : d.fieldInt i = 0
    · right
      exact ⟨i, hz, by rw [if_pos hz]⟩
    · left
      rw [if_neg hz]

theorem applyCall_changes_only_zero (norm : String → Int) (d : Data) (c : Call) (i : Nat)
    (h : (applyCall norm d c).fieldInt i ≠ d.fieldInt i) : d.fieldInt i = 0 := by
  cases c with
  | setData ft val =>
    simp only [applyCall] at h
    rcases SetData_cases norm d ft val with h1 | ⟨j, hz, h1⟩
    · rw [h1] at h
      exact absurd rfl h
    · rw [h1] at h
      by_cases hij : i = j
      · rw [hij]; exact hz
      · exact absurd (fieldInt_setInt_other d j i _ hij) h
  | validate =>
    simp only [applyCall, Validate_eq] at h
    by_cases hi : i = 2
    · subst hi
      cases d with
      | ops o =>
        by_contra hz
        have hz2 : ¬ o.GrossMargin = 0 := hz
        apply h
        simp [derived, hz2]
      | entity e => exact absurd rfl h
      | cf c => exact absurd rfl h
      | bs b => exact absurd rfl h
    · exact absurd (fieldInt_derived d i hi) h

theorem runCalls_keeps_nonzero (norm : String → Int) :
    ∀ (calls : List Call) (d : Data) (i : Nat), d.fieldInt i ≠ 0 →
      (runCalls norm d calls).fieldInt i = d.fieldInt i
  | [], _, _, _ => rfl
  | c :: rest, d, i, hz => by
    have h1 : (applyCall norm d c).fieldInt i = d.fieldInt i := by
      by_contra hne
      exact hz (applyCall_changes_only_zero norm d c i hne)
    have h2 := runCalls_keeps_nonzero norm rest (applyCall norm d c) i (by rw [h1]; exact hz)
    simp only [runCalls, List.foldl_cons] at h2 ⊢
    rw [h2, h1]

theorem runCalls_append (norm : String → Int) (d : Data) (a b : List Call) :
    runCalls norm d (a ++ b) = runCalls norm (runCalls norm d a) b := by
  simp [runCalls, List.foldl_append]

/-- C15: the set-once invariant. For every record shape, every normalizer and
every finite sequence of `SetData` and `Validate` calls on one record, an
attribute that has become non-zero keeps that value through all later calls,
and a call changes an attribute only from 0. -/
theorem set_once_invariant (normalizeNumber : String → Int) (d : Data)
    (before later : List Call) (i : Nat)
    (h : (runCalls normalizeNumber d before).fieldInt i ≠ 0) :
    (runCalls normalizeNumber d (before ++ later)).fieldInt i =
      (runCalls normalizeNumber d before).fieldInt i ∧
    (∀ (r : Data) (c : Call) (k : Nat),
      (applyCall normalizeNumber r c).fieldInt k ≠ r.fieldInt k → r.fieldInt k = 0) := by
  refine ⟨?_, fun r c k hk => applyCall_changes_only_zero normalizeNumber r c k hk⟩
  rw [runCalls_append]
  exact runCalls_keeps_nonzero normalizeNumber later _ i h

/-- C15 on an operations record: Revenue is set to 3 by the first call (the
normalizer here is the length of the text) and keeps that value through a
second `SetData` for the same field, a `Validate` and a `SetData` for another
field. -/
theorem set_once_invariant_witness :
    (runCalls (fun s => (s.length : Int)) (.ops ⟨0, 0, 0, 0, 0, 0⟩)
      [.setData finDataRevenue "100"]).fieldInt 0 = 3 ∧
    (runCalls (fun s => (s.length : Int)) (.ops ⟨0, 0, 0, 0, 0, 0⟩)
      ([.setData finDataRevenue "100"] ++
        [.setData finDataRevenue "20000", .validate, .setData finDataCostOfRevenue "7"])).fieldInt 0 =
      (runCalls (fun s => (s.length : Int)) (.ops ⟨0, 0, 0, 0, 0, 0⟩)
        [.setData finDataRevenue "100"]).fieldInt 0 :=
  ⟨by decide,
   (set_once_invariant (fun s => (s.length : Int)) (.ops ⟨0, 0, 0, 0, 0, 0⟩)
     [.setData finDataRevenue "100"]
     [.setData finDataRevenue "20000", .validate, .setData finDataCostOfRevenue "7"] 0
     (by decide)).1⟩

/-! ## The keyword table and the binding to attributes: C16, C17 -/

theorem searchKeys_congr (l1 l2 : Char → Char) (key : String) :
    ∀ (tbl : List finDataSearchInfo),
      (∀ e ∈ tbl, ToLower l1 e.finDataStr = e.finDataStr) →
      (∀ e ∈ tbl, ToLower l2 e.finDataStr = e.finDataStr) →
      searchKeys l1 key tbl = searchKeys l2 key tbl
  | [], _, _ => rfl
  | val :: rest, h1, h2 => by
    simp only [searchKeys, h1 val (List.mem_cons_self _ _), h2 val (List.mem_cons_self _ _)]
    rw [searchKeys_congr l1 l2 key rest (fun e he => h1 e (List.mem_cons_of_mem _ he))
      (fun e he => h2 e (List.mem_cons_of_mem _ he))]

theorem asciiLower_toLower : ASCIILower Char.toLower := fun _ _ => rfl

/-- C16: no entry of `finDataSearchKeys` is shadowed: every keyword classifies
as the field of its own entry, and a keyword that contains an earlier keyword
maps to the same field as that one; "current portion of long-term" classifies
as Short-Term debt and "long-term debt" as Long-Term debt. -/
theorem no_entry_shadowed (lower : Char → Char) (hl : ASCIILower lower) :
    (∀ e ∈ finDataSearchKeys, getFinDataType lower e.finDataStr = e.finDataName) ∧
    (∀ (i j : Nat) (ei ej : finDataSearchInfo), j < i →
      finDataSearchKeys[i]? = some ei → finDataSearchKeys[j]? = some ej →
      ej.finDataStr.data <:+: ei.finDataStr.data → ej.finDataName = ei.finDataName) ∧
    getFinDataType lower "current portion of long-term" = finDataSDebt ∧
    getFinDataType lower "long-term debt" = finDataLDebt := by
  have hall : ∀ e ∈ finDataSearchKeys, getFinDataType lower e.finDataStr = e.finDataName := by
    intro e he
    have hfix := searchKeys_fixed lower hl
    have hfix2 := searchKeys_fixed Char.toLower asciiLower_toLower
    have hd : ∀ e ∈ finDataSearchKeys,
        searchKeys Char.toLower e.finDataStr finDataSearchKeys = e.finDataName := by
      decide
    show searchKeys lower (ToLower lower e.finDataStr) finDataSearchKeys = e.finDataName
    rw [hfix e he, searchKeys_congr lower Char.toLower _ _ hfix hfix2]
    exact hd e he
  refine ⟨hall, ?_, hall ⟨finDataSDebt, "current portion of long-term"⟩ (by decide),
    hall ⟨finDataLDebt, "long-term debt"⟩ (by decide)⟩
  intro i j ei ej hji hi hj hinf
  have hc := (Contains_iff _ _).mpr hinf
  have hd : ∀ i < 22, ∀ j < i, ∀ ei ∈ finDataSearchKeys[i]?, ∀ ej ∈ finDataSearchKeys[j]?,
      Contains ei.finDataStr ej.finDataStr = true → ej.finDataName = ei.finDataName := by
    decide
  have hi22 : i < 22 := lt_length_of_getElem? _ _ _ hi
  exact hd i hi22 j hji ei (Option.mem_def.mpr hi) ej (Option.mem_def.mpr hj) hc

/-- C16 with the ASCII lower-casing, at the entry "operating expenses". -/
theorem no_entry_shadowed_witness :
    ASCIILower Char.toLower ∧
    getFinDataType Char.toLower "operating expenses" = finDataOpsExpense :=
  ⟨asciiLower_toLower,
   (no_entry_shadowed Char.toLower asciiLower_toLower).1
     ⟨finDataOpsExpense, "operating expenses"⟩ (by decide)⟩

theorem fields_eq_shape_fields (d : Data) : d.fields = d.shape.fields := by
  cases d <;> rfl

theorem SetData_ok_iff (norm : String → Int) (d : Data) (ft : finDataType) (val : String) :
    (SetData norm d ft val).2 = none ↔ ∃ f ∈ d.fields, f.json = some ft := by
  constructor
  · intro h
    by_contra hc
    push_neg at hc
    rw [show SetData norm d ft val = _ from setDataLoop_none norm ft val d.fields 0 d hc] at h
    exact Option.noConfusion h
  · rintro ⟨f, hf, hj⟩
    obtain ⟨i, hi⟩ := List.getElem?_of_mem hf
    rw [SetData_bound norm d ft val i f hi hj]

theorem mem_allShapes (s : Shape) : s ∈ allShapes := by
  cases s <;> decide

/-- C17: the binding between field types and record attributes is total and
unique. Every declared `finDataType` other than `finDataUnknown` occurs in
`finDataSearchKeys` and is the json tag of exactly one attribute among the four
shapes, so `SetData` succeeds for it on exactly one shape; `finDataUnknown` is the
tag of no attribute and `SetData` fails for it on every record. -/
theorem binding_total_unique :
    (∀ t ∈ finDataTypes, ∃ e ∈ finDataSearchKeys, e.finDataName = t) ∧
    (∀ t ∈ finDataTypes,
      ((entityFields ++ opsFields ++ cfFields ++ bsFields).filter
        (fun f => decide (f.json = some t))).length = 1) ∧
    (∀ t ∈ finDataTypes, ∃ s : Shape,
      ∀ (norm : String → Int) (d : Data) (val : String),
        ((SetData norm d t val).2 = none ↔ d.shape = s)) ∧
    finDataUnknown ∉ finDataTypes ∧
    (∀ (s : Shape), ∀ f ∈ s.fields, f.json ≠ some finDataUnknown) ∧
    (∀ (norm : String → Int) (d : Data) (val : String),
      (SetData norm d finDataUnknown val).2 ≠ none) := by
  have hU : ∀ (s : Shape), ∀ f ∈ s.fields, f.json ≠ some finDataUnknown := by
    intro s
    cases s
    · exact (by decide : ∀ f ∈ entityFields, f.json ≠ some finDataUnknown)
    · exact (by decide : ∀ f ∈ opsFields, f.json ≠ some finDataUnknown)
    · exact (by decide : ∀ f ∈ cfFields, f.json ≠ some finDataUnknown)
    · exact (by decide : ∀ f ∈ bsFields, f.json ≠ some finDataUnknown)
  refine ⟨by decide, by decide, ?_, by decide, hU, ?_⟩
  · intro t ht
    have hd : ∀ t ∈ finDataTypes, ∃ s ∈ allShapes, (∃ f ∈ s.fields, f.json = some t) ∧
        ∀ s1 ∈ allShapes, s1 ≠ s → ∀ f ∈ s1.fields, f.json ≠ some t := by
      decide
    obtain ⟨s, _, ⟨f, hf, hj⟩, huniq⟩ := hd t ht
    refine ⟨s, fun norm d val => ?_⟩
    rw [SetData_ok_iff, fields_eq_shape_fields]
    constructor
    · rintro ⟨g, hg, hgj⟩
      by_contra hne
      exact huniq d.shape (mem_allShapes _) hne g hg hgj
    · intro hs
      rw [hs]
      exact ⟨f, hf, hj⟩
  · intro norm d val h
    obtain ⟨f, hf, hj⟩ := (SetData_ok_iff norm d finDataUnknown val).mp h
    rw [fields_eq_shape_fields] at hf
    exact hU d.shape f hf hj

/-! ## The row loop of `getBSData`: C11, C19 -/

theorem setFirstCell_empty {σ : Type} (h : Helpers σ) (finType : finDataType) :
    ∀ (cells : List String) (r : σ), (∀ c ∈ cells, c = "") → setFirstCell h finType cells r = r
  | [], _, _ => rfl
  | c :: rest, r, hc => by
    have h0 : c = "" := hc c (List.mem_cons_self _ _)
    subst h0
    simp only [setFirstCell]
    rw [if_neg (by decide)]
    exact setFirstCell_empty h finType rest r (fun c1 h1 => hc c1 (List.mem_cons_of_mem _ h1))

/-- C19: in the loop of `getBSData`, a row whose value cells (every cell after
the label) are all empty strings leaves the record unchanged, whatever its label
classifies as; so does a row of zero cells and a row whose label classifies as
`finDataUnknown`. On a balance sheet the completeness check that follows changes
nothing either, so the whole iteration leaves the record as it was. -/
theorem processRow_no_value (lower : Char → Char) (normalizeNumber : String → Int) :
    (∀ {σ : Type} (h : Helpers σ) (label : String) (cells : List String) (r : σ),
      (∀ c ∈ cells, c = "") → processRow h (label :: cells) r = r) ∧
    (∀ {σ : Type} (h : Helpers σ) (r : σ), processRow h [] r = r) ∧
    (∀ {σ : Type} (h : Helpers σ) (label : String) (cells : List String) (r : σ),
      h.getFinDataType label = finDataUnknown → processRow h (label :: cells) r = r) ∧
    (∀ (data : List String) (b : BSData),
      (data = [] ∨ ∃ (label : String) (cells : List String), data = label :: cells ∧
        ((∀ c ∈ cells, c = "") ∨ getFinDataType lower label = finDataUnknown)) →
      (Validate (processRow (dataDefHelpers lower normalizeNumber) data (.bs b))).1 = .bs b) := by
  have h1 : ∀ {σ : Type} (h : Helpers σ) (label : String) (cells : List String) (r : σ),
      (∀ c ∈ cells, c = "") → processRow h (label :: cells) r = r := by
    intro σ h label cells r hc
    simp only [processRow]
    split_ifs
    · exact setFirstCell_empty h _ cells r hc
    · rfl
  have h3 : ∀ {σ : Type} (h : Helpers σ) (label : String) (cells : List String) (r : σ),
      h.getFinDataType label = finDataUnknown → processRow h (label :: cells) r = r := by
    intro σ h label cells r hu
    simp only [processRow]
    rw [if_neg (by simp [hu])]
  refine ⟨h1, fun h r => rfl, h3, ?_⟩
  intro data b hd
  have hp : processRow (dataDefHelpers lower normalizeNumber) data (.bs b) = .bs b := by
    rcases hd with rfl | ⟨label, cells, rfl, hc | hu⟩
    · rfl
    · exact h1 _ label cells _ hc
    · exact h3 _ label cells _ hu
  rw [hp, Validate_eq]
  rfl

theorem rowLoop_stop {σ : Type} (h : Helpers σ) :
    ∀ (rows : List (List String)) (r : σ) (k : Nat) (data : List String),
      rows[k]? = some data →
      (∀ (j : Nat) (dj : List String), j < k → rows[j]? = some dj →
        ¬ rowPasses h dj (afterRows h (rows.take j) r)) →
      rowPasses h data (afterRows h (rows.take k) r) →
      rowLoop h rows r = (afterRows h (rows.take (k + 1)) r, rows.drop (k + 1))
  | [], _, k, _, hk, _, _ => by simp at hk
  | d0 :: rest, r, 0, data, hk, _, hp => by
    simp only [List.getElem?_cons_zero, Option.some.injEq] at hk
    subst hk
    rw [rowLoop_cons]
    simp only [rowPasses, afterRows, List.take_zero, List.foldl_nil] at hp
    rw [if_pos hp]
    simp [afterRows]
  | d0 :: rest, r, k + 1, data, hk, hno, hp => by
    rw [rowLoop_cons]
    have h0 := hno 0 d0 (Nat.succ_pos k) (by simp)
    simp only [rowPasses, afterRows, List.take_zero, List.foldl_nil] at h0
    rw [if_neg h0]
    have ih := rowLoop_stop h rest (h.validate (processRow h d0 r)).1 k data
      (by simpa using hk)
      (fun j dj hj hdj => by
        have := hno (j + 1) dj (Nat.succ_lt_succ hj) (by simpa using hdj)
        simpa [afterRows] using this)
      (by simpa [afterRows] using hp)
    rw [ih]
    simp [afterRows]

theorem rowLoop_exhaust {σ : Type} (h : Helpers σ) :
    ∀ (rows : List (List String)) (r : σ),
      (∀ (j : Nat) (dj : List String), rows[j]? = some dj →
        ¬ rowPasses h dj (afterRows h (rows.take j) r)) →
      rowLoop h rows r = (afterRows h rows r, [])
  | [], _, _ => rfl
  | d0 :: rest, r, hno => by
    rw [rowLoop_cons]
    have h0 := hno 0 d0 (by simp)
    simp only [rowPasses, afterRows, List.take_zero, List.foldl_nil] at h0
    rw [if_neg h0]
    have ih := rowLoop_exhaust h rest (h.validate (processRow h d0 r)).1
      (fun j dj hdj => by
        have := hno (j + 1) dj (by simpa using hdj)
        simpa [afterRows] using this)
    rw [ih]
    simp [afterRows]

theorem afterRows_take_succ {σ : Type} (h : Helpers σ) (rows : List (List String)) (r : σ)
    (k : Nat) (data : List String) (hk : rows[k]? = some data) :
    afterRows h (rows.take (k + 1)) r =
      (h.validate (processRow h data (afterRows h (rows.take k) r))).1 := by
  simp [afterRows, List.take_succ, hk, List.foldl_append]

/-- C11: early termination in `getBSData`. For every sequence of rows, if the
completeness check after the k-th row is the first to pass, then the rows after
the k-th are never requested from the tokenizer, the returned record is the
record as it stood after row k, and the returned result is success; if no check
passes, every row is processed and the result is that of `Validate` on the final
record. -/
theorem getBSData_early_termination (lower : Char → Char) (normalizeNumber : String → Int)
    (new : Data) (rows : List (List String)) (e : String) :
    (∀ (k : Nat) (data : List String), rows[k]? = some data →
      (∀ (j : Nat) (dj : List String), j < k → rows[j]? = some dj →
        ¬ rowPasses (dataDefHelpers lower normalizeNumber) dj
          (afterRows (dataDefHelpers lower normalizeNumber) (rows.take j) new)) →
      rowPasses (dataDefHelpers lower normalizeNumber) data
        (afterRows (dataDefHelpers lower normalizeNumber) (rows.take k) new) →
      (rowLoop (dataDefHelpers lower normalizeNumber) rows new).2 = rows.drop (k + 1) ∧
      getBSData (dataDefHelpers lower normalizeNumber) new ⟨rows, e⟩ =
        (afterRows (dataDefHelpers lower normalizeNumber) (rows.take (k + 1)) new, none)) ∧
    ((∀ (j : Nat) (dj : List String), rows[j]? = some dj →
        ¬ rowPasses (dataDefHelpers lower normalizeNumber) dj
          (afterRows (dataDefHelpers lower normalizeNumber) (rows.take j) new)) →
      (rowLoop (dataDefHelpers lower normalizeNumber) rows new).2 = [] ∧
      getBSData (dataDefHelpers lower normalizeNumber) new ⟨rows, e⟩ =
        Validate (afterRows (dataDefHelpers lower normalizeNumber) rows new)) := by
  constructor
  · intro k data hk hno hp
    have hl := rowLoop_stop _ rows new k data hk hno hp
    refine ⟨by rw [hl], ?_⟩
    show Validate (rowLoop (dataDefHelpers lower normalizeNumber) rows new).1 = _
    rw [hl, afterRows_take_succ _ rows new k data hk]
    have hv : ∀ r : Data, (dataDefHelpers lower normalizeNumber).validate r = Validate r :=
      fun _ => rfl
    rw [hv, Validate_Validate]
    have hp2 : (Validate (processRow (dataDefHelpers lower normalizeNumber) data
        (afterRows (dataDefHelpers lower normalizeNumber) (rows.take k) new))).2 = none := hp
    exact Prod.ext rfl hp2
  · intro hno
    have hl := rowLoop_exhaust _ rows new hno
    refine ⟨by rw [hl], ?_⟩
    show Validate (rowLoop (dataDefHelpers lower normalizeNumber) rows new).1 = _
    rw [hl]

/-- C11 on `sampleBSRows` (the normalizer here is the length of the text): the
check after the fourth row is the first to pass, the fifth row is never
requested and the result is success. -/
theorem getBSData_early_termination_witness :
    rowPasses (dataDefHelpers Char.toLower (fun s => (s.length : Int)))
      ["Retained earnings", "11"]
      (afterRows (dataDefHelpers Char.toLower (fun s => (s.length : Int)))
        (sampleBSRows.take 3) newBSData) ∧
    (rowLoop (dataDefHelpers Char.toLower (fun s => (s.length : Int))) sampleBSRows
      newBSData).2 = [["Goodwill", "3"]] ∧
    getBSData (dataDefHelpers Char.toLower (fun s => (s.length : Int))) newBSData
      ⟨sampleBSRows, ioEOF⟩ = (.bs ⟨1, 1, 1, 0, 2⟩, none) :=
  have hno : ∀ (j : Nat) (dj : List String), j < 3 → sampleBSRows[j]? = some dj →
      ¬ rowPasses (dataDefHelpers Char.toLower (fun s => (s.length : Int))) dj
        (afterRows (dataDefHelpers Char.toLower (fun s => (s.length : Int)))
          (sampleBSRows.take j) newBSData) := by
    intro j dj hj hdj
    have hd : ∀ j < 3, ∀ dj ∈ sampleBSRows[j]?,
        ¬ rowPasses (dataDefHelpers Char.toLower (fun s => (s.length : Int))) dj
          (afterRows (dataDefHelpers Char.toLower (fun s => (s.length : Int)))
            (sampleBSRows.take j) newBSData) := by
      decide
    exact hd j hj dj (Option.mem_def.mpr hdj)
  have h := (getBSData_early_termination Char.toLower (fun s => (s.length : Int)) newBSData
    sampleBSRows ioEOF).1 3 ["Retained earnings", "11"] rfl hno (by decide)
  ⟨by decide, h.1, h.2.trans (by decide)⟩

/-! ## The normalizer and the end-to-end scenario: C12, C13 -/

/-- C13 as stated fails on `SetData`: it has no invalid-number path. With a
normalizer that returns 7 for every text, the empty text stores 7 in `LDebt` and
the call returns `nil`; and for no normalizer of the type `SetData` calls does the
empty text give an error or anything but the stored value of the normalizer. -/
theorem SetData_empty_text_counterexample :
    SetData (fun _ => 7) newBSData finDataLDebt "" = (.bs ⟨7, 0, 0, 0, 0⟩, none) ∧
    ¬ ∃ norm : String → Int,
      (SetData norm newBSData finDataLDebt "").2 ≠ none ∨
      (SetData norm newBSData finDataLDebt "").1 ≠ .bs ⟨norm "", 0, 0, 0, 0⟩ := by
  have h : ∀ norm : String → Int,
      SetData norm newBSData finDataLDebt "" = (.bs ⟨norm "", 0, 0, 0, 0⟩, none) := by
    intro norm
    rw [SetData_bound norm newBSData finDataLDebt "" 0
      ⟨"LDebt", some "Long-Term debt", some "true", none⟩ rfl rfl]
    rfl
  refine ⟨h _, ?_⟩
  rintro ⟨norm, hn | hn⟩
  · rw [h norm] at hn
    exact hn rfl
  · rw [h norm] at hn
    exact hn rfl

/-- C13 amended: the number normalizer of the spec satisfies
`normalize("(1,234)", 1) = -1234` and `normalize("1,234", 1000) = 1234000` and has
no value for `normalize("", s)` at any scale; `SetData`, however, calls the
one-argument `normalizeNumber(val)`, which returns an `int64` and cannot signal
an invalid number: whatever it returns, for the empty text too, `SetData` stores
in the bound attribute when that is 0, returning `nil`, and the only error
`SetData` ever returns is the field-not-applicable one. -/
theorem normalize_values_SetData_total :
    normalize "(1,234)" 1 = some (-1234) ∧
    normalize "1,234" 1000 = some 1234000 ∧
    (∀ s : Int, normalize "" s = none) ∧
    (∀ (norm : String → Int) (d : Data) (ft : finDataType) (val : String) (i : Nat)
      (f : StructField), d.fields[i]? = some f → f.json = some ft → d.fieldInt i = 0 →
      SetData norm d ft val = (d.setInt i (norm val), none)) ∧
    (∀ (norm : String → Int) (d : Data) (ft : finDataType) (val : String),
      (SetData norm d ft val).2 = none ∨
      (SetData norm d ft val).2 = some ("Could not find the field to set: " ++ ft)) := by
  refine ⟨by decide, by decide, fun _ => rfl, ?_, ?_⟩
  · intro norm d ft val i f hf hj hz
    rw [SetData_bound norm d ft val i f hf hj, if_pos hz]
  · intro norm d ft val
    by_cases h : ∀ f ∈ d.fields, f.json ≠ some ft
    · right
      rw [show SetData norm d ft val = _ from setDataLoop_none norm ft val d.fields 0 d h]
    · left
      push_neg at h
      obtain ⟨f, hf, hj⟩ := h
      exact (SetData_ok_iff norm d ft val).mpr ⟨f, hf, hj⟩

/-- C12 as stated fails: on the three rows of the scenario at scale 1000 the loop
never halts as complete, it runs until the stream ends and `getBSData` returns a
failure naming OpIncome and OpExpense; and GrossMargin is 1,000,000, derived by
the check after the first row from Revenue alone. -/
theorem scenario_counterexample :
    (rowLoop (scaledHelpers Char.toLower 1000) scenarioRows newOpsData).2 = [] ∧
    (∀ k < 3, ∀ data ∈ scenarioRows[k]?,
      ¬ rowPasses (scaledHelpers Char.toLower 1000) data
        (afterRows (scaledHelpers Char.toLower 1000) (scenarioRows.take k) newOpsData)) ∧
    getBSData (scaledHelpers Char.toLower 1000) newOpsData ⟨scenarioRows, ioEOF⟩ =
      (.ops ⟨1000000, 600000, 1000000, 0, 0, 250000⟩,
        some "[OpIncome,OpExpense,] attributes did not parse") := by
  decide

theorem ToLower_ascii (lower : Char → Char) (hl : ASCIILower lower) (s : String)
    (hs : s.data.all (fun c => decide (c.toNat < 128)) = true) :
    ToLower lower s = ToLower Char.toLower s := by
  unfold ToLower
  congr 1
  apply List.map_congr_left
  intro c hc
  exact hl c (by simpa using List.all_eq_true.mp hs c hc)

theorem getFinDataType_ascii (lower : Char → Char) (hl : ASCIILower lower) (s : String)
    (hs : s.data.all (fun c => decide (c.toNat < 128)) = true) :
    getFinDataType lower s = getFinDataType Char.toLower s := by
  unfold getFinDataType
  simp only [ToLower_ascii lower hl s hs]
  exact searchKeys_congr lower Char.toLower _ _ (searchKeys_fixed lower hl)
    (searchKeys_fixed Char.toLower asciiLower_toLower)

theorem setFirstCell_congr {σ : Type} (h1 h2 : Helpers σ) (hs : h1.setData = h2.setData)
    (ft : finDataType) :
    ∀ (cells : List String) (r : σ), setFirstCell h1 ft cells r = setFirstCell h2 ft cells r
  | [], _ => rfl
  | c :: rest, r => by
    simp only [setFirstCell, hs]
    split_ifs
    · rfl
    · exact setFirstCell_congr h1 h2 hs ft rest _
    · exact setFirstCell_congr h1 h2 hs ft rest _

theorem processRow_congr {σ : Type} (h1 h2 : Helpers σ) (hs : h1.setData = h2.setData)
    (data : List String) (r : σ)
    (hl : ∀ label ∈ data.head?, h1.getFinDataType label = h2.getFinDataType label) :
    processRow h1 data r = processRow h2 data r := by
  cases data with
  | nil => rfl
  | cons label cells =>
    have := hl label (by simp)
    simp only [processRow, this, setFirstCell_congr h1 h2 hs]

theorem rowLoop_congr {σ : Type} (h1 h2 : Helpers σ) (hs : h1.setData = h2.setData)
    (hv : h1.validate = h2.validate) :
    ∀ (rows : List (List String)) (r : σ),
      (∀ data ∈ rows, ∀ label ∈ data.head?,
        h1.getFinDataType label = h2.getFinDataType label) →
      rowLoop h1 rows r = rowLoop h2 rows r
  | [], _, _ => rfl
  | data :: rest, r, hl => by
    rw [rowLoop_cons, rowLoop_cons,
      processRow_congr h1 h2 hs data r (hl data (List.mem_cons_self _ _)), hv]
    split_ifs
    · rfl
    · exact rowLoop_congr h1 h2 hs hv rest _ (fun d hd => hl d (List.mem_cons_of_mem _ hd))

theorem getBSData_scaled_ascii (lower : Char → Char) (hl : ASCIILower lower) (scale : Int)
    (new : Data) (z : Tokenizer) (hz : labelsASCII z.rows = true) :
    rowLoop (scaledHelpers lower scale) z.rows new =
      rowLoop (scaledHelpers Char.toLower scale) z.rows new ∧
    getBSData (scaledHelpers lower scale) new z =
      getBSData (scaledHelpers Char.toLower scale) new z := by
  have h := rowLoop_congr (scaledHelpers lower scale) (scaledHelpers Char.toLower scale) rfl rfl
    z.rows new (fun data hd label hlab => by
      have h1 := List.all_eq_true.mp hz data hd
      have h2 : label.data.all (fun c => decide (c.toNat < 128)) = true := by
        rw [Option.mem_def] at hlab
        simpa [hlab] using h1
      exact getFinDataType_ascii lower hl label h2)
  refine ⟨h, ?_⟩
  show Validate (rowLoop (scaledHelpers lower scale) z.rows new).1 = _
  rw [h]
  rfl

/-- C12 amended: the extraction loop (classify the label, set the first usable
value cell, validate after each row, as in `getBSData`) on an `OpsData` record
over the three rows at scale 1000 yields Revenue = 1,000,000,
CostOfRevenue = 600,000 and NetIncome = 250,000, and it does not halt as
complete on these rows: OpIncome and OpExpense are still unset, so the loop ends
when the stream is exhausted and the result is the failure naming those two. Once
rows for operating income and operating expenses have been consumed as well, the
loop halts as complete and the row after them is not requested. -/
theorem scenario_amended (lower : Char → Char) (hl : ASCIILower lower) :
    ((getBSData (scaledHelpers lower 1000) newOpsData ⟨scenarioRows, ioEOF⟩).1).fieldInt 0 =
      1000000 ∧
    ((getBSData (scaledHelpers lower 1000) newOpsData ⟨scenarioRows, ioEOF⟩).1).fieldInt 1 =
      600000 ∧
    ((getBSData (scaledHelpers lower 1000) newOpsData ⟨scenarioRows, ioEOF⟩).1).fieldInt 5 =
      250000 ∧
    (rowLoop (scaledHelpers lower 1000) scenarioRows newOpsData).2 = [] ∧
    (getBSData (scaledHelpers lower 1000) newOpsData ⟨scenarioRows, ioEOF⟩).2 =
      some "[OpIncome,OpExpense,] attributes did not parse" ∧
    (rowLoop (scaledHelpers lower 1000) scenarioRowsExtended newOpsData).2 =
      [["Earnings per share", "$2"]] ∧
    (getBSData (scaledHelpers lower 1000) newOpsData ⟨scenarioRowsExtended, ioEOF⟩).2 =
      none := by
  have h1 := getBSData_scaled_ascii lower hl 1000 newOpsData ⟨scenarioRows, ioEOF⟩ (by decide)
  have h2 := getBSData_scaled_ascii lower hl 1000 newOpsData ⟨scenarioRowsExtended, ioEOF⟩
    (by decide)
  rw [h1.2, h2.2]
  have h3 : rowLoop (scaledHelpers lower 1000) scenarioRows newOpsData =
      rowLoop (scaledHelpers Char.toLower 1000) scenarioRows newOpsData := h1.1
  have h4 : rowLoop (scaledHelpers lower 1000) scenarioRowsExtended newOpsData =
      rowLoop (scaledHelpers Char.toLower 1000) scenarioRowsExtended newOpsData := h2.1
  rw [h3, h4]
  decide

/-- C12 amended, with the ASCII lower-casing. -/
theorem scenario_amended_witness :
    ASCIILower Char.toLower ∧
    (getBSData (scaledHelpers Char.toLower 1000) newOpsData ⟨scenarioRows, ioEOF⟩).2 =
      some "[OpIncome,OpExpense,] attributes did not parse" :=
  ⟨asciiLower_toLower, (scenario_amended Char.toLower asciiLower_toLower).2.2.2.2.1⟩

end Edgar
